import Mathlib

/-!
Verification development for the vscode-restore-folder extension.

The TypeScript sources (backup-scanner.ts, item-organizer.ts, file-restorer.ts,
file-system-utils.ts, constants.ts) are shallowly embedded below as executable
Lean definitions.  Paths are POSIX-style strings; modification times are
naturals; `fs.Stats` is represented by its modification time, the only field
the program reads.  JavaScript string primitives (`startsWith`, `split`,
`includes`, `localeCompare`, `decodeURIComponent`) and the Node `path` helpers
(`join`, `dirname`, `basename`, `relative`) are modelled character-by-character
on `String.data`; `Array.prototype.sort` is modelled as a stable insertion
sort with respect to the JavaScript comparator, which is what the ECMAScript
specification guarantees for a consistent comparator.
-/

set_option linter.unusedVariables false

/-! ## Character-level string primitives -/

/-- Model of JavaScript `s.startsWith(t)`: `leadsChars t.data s.data`. -/
def leadsChars : List Char → List Char → Bool
  | [], _ => true
  | _ :: _, [] => false
  | a :: as, b :: bs => a = b && leadsChars as bs

/-- Model of JavaScript `String.prototype.startsWith`. -/
def strStartsWith (s t : String) : Bool := leadsChars t.data s.data

/-- Model of JavaScript `String.prototype.includes` (substring test). -/
def containsSub : List Char → List Char → Bool
  | [], pat => pat.isEmpty
  | c :: rest, pat => leadsChars pat (c :: rest) || containsSub rest pat

/-- Model of JavaScript `String.prototype.includes` on strings. -/
def strIncludes (s pat : String) : Bool := containsSub s.data pat.data

/-- Splitting a character list at every `'/'`, as `String.prototype.split('/')`
does: the empty list yields one empty segment. -/
def splitChars : List Char → List (List Char)
  | [] => [[]]
  | c :: rest =>
      if c = '/' then [] :: splitChars rest
      else
        match splitChars rest with
        | [] => [[c]]
        | g :: gs => (c :: g) :: gs

/-- Segments of a slash-separated path, as in `p.split('/')`. -/
def splitSlash (s : String) : List String := (splitChars s.data).map String.mk

/-- Joining segments with `'/'`, the inverse of `splitSlash` on canonical
input, as in `segments.join('/')`. -/
def joinSlash : List String → String
  | [] => ""
  | [x] => x
  | x :: rest => x ++ "/" ++ joinSlash rest

/-- Value of a hexadecimal digit character, if it is one (digits by code
point: `0`-`9` are 48-57, `A`-`F` are 65-70, `a`-`f` are 97-102). -/
def hexDigitValue (c : Char) : Option Nat :=
  let n := c.toNat
  if 48 ≤ n ∧ n ≤ 57 then some (n - 48)
  else if 65 ≤ n ∧ n ≤ 70 then some (n - 55)
  else if 97 ≤ n ∧ n ≤ 102 then some (n - 87)
  else none

/-- Model of JavaScript `decodeURIComponent` restricted to single-byte escape
sequences: every `%XY` with hex digits `X`, `Y` becomes the character with
code `16*X+Y`; other characters pass through.  Multi-byte UTF-8 escape
sequences and the malformed-input exception of the real function are outside
the modelled fragment (no theorem below depends on them). -/
def percentDecode : List Char → List Char
  | [] => []
  | '%' :: a :: b :: rest =>
      match hexDigitValue a, hexDigitValue b with
      | some x, some y => Char.ofNat (16 * x + y) :: percentDecode rest
      | _, _ => '%' :: percentDecode (a :: b :: rest)
  | c :: rest => c :: percentDecode rest

/-! ## Node `path` module (POSIX flavour, on already-normalized inputs) -/

/-- Model of Node `path.join(a, b)` for the calls made by this program: every
call site joins an absolute normalized directory path with a single relative
segment (or segment chain) free of `.`/`..`, on which `path.join` is plain
concatenation with a separator. -/
def pathJoin (a b : String) : String := a ++ "/" ++ b

/-- Model of Node `path.posix.dirname` on normalized, non-trailing-slash
paths: drop the final segment; a segment-free path has dirname `.`; an
absolute path whose remaining segments are empty has dirname `/`. -/
def dirname (p : String) : String :=
  let parts := splitSlash p
  if parts.length ≤ 1 then "."
  else
    let front := parts.dropLast
    if front.all (· = "") then (if strStartsWith p "/" then "/" else ".")
    else joinSlash front

/-- Model of Node `path.posix.basename` on normalized paths: the final
segment. -/
def basename (p : String) : String :=
  match (splitSlash p).getLast? with
  | some s => s
  | none => ""

/-- Length of the common leading run of two segment lists. -/
def commonLeadLen : List String → List String → Nat
  | a :: as, b :: bs => if a = b then 1 + commonLeadLen as bs else 0
  | _, _ => 0

/-- Model of Node `path.posix.relative(fromP, toP)` for absolute normalized
arguments: drop the common leading segments, replace what remains of `fromP`
by `..` steps, and append what remains of `toP`. -/
def pathRelative (fromP toP : String) : String :=
  let fp := (splitSlash fromP).filter (· ≠ "")
  let tp := (splitSlash toP).filter (· ≠ "")
  let k := commonLeadLen fp tp
  joinSlash (List.replicate (fp.length - k) ".." ++ tp.drop k)

/-! ## String comparison and the JavaScript sort -/

/-- Three-way code-point comparison of character lists. -/
def charListCmp : List Char → List Char → Ordering
  | [], [] => .eq
  | [], _ :: _ => .lt
  | _ :: _, [] => .gt
  | a :: as, b :: bs =>
      if a.toNat < b.toNat then .lt
      else if b.toNat < a.toNat then .gt
      else charListCmp as bs

/-- Model of JavaScript `a.localeCompare(b)` in the default locale: compare
case-insensitively first (primary strength), break ties by code points.  The
theorems below use only that this is a total preorder; no claim depends on
the exact tie-breaking of the real ICU collator. -/
def localeCompare (a b : String) : Int :=
  match charListCmp (a.data.map Char.toLower) (b.data.map Char.toLower) with
  | .lt => -1
  | .gt => 1
  | .eq =>
      match charListCmp a.data b.data with
      | .lt => -1
      | .gt => 1
      | .eq => 0

/-- Stable insertion of one element with respect to a JavaScript comparator:
the element goes in front of the first resident that does not strictly
precede it. -/
def jsInsertBy (cmp : α → α → Int) (x : α) : List α → List α
  | [] => [x]
  | y :: ys => if cmp x y ≤ 0 then x :: y :: ys else y :: jsInsertBy cmp x ys

/-- Model of `Array.prototype.sort(cmp)`: a stable sort with respect to the
comparator, realized as insertion sort. -/
def jsSortBy (cmp : α → α → Int) : List α → List α
  | [] => []
  | x :: xs => jsInsertBy cmp x (jsSortBy cmp xs)

/-! ## The DeletedItem record (types.ts) -/

/-- Embedding of the `DeletedItem` interface from `types.ts`.  `uriFsPath`
stands for `uri` (for a `vscode.Uri.file(p)` the program only ever reads back
`fsPath = p`); `deletionTime` is the `Date` as a natural number;
`backupPath : Option String` keeps the TypeScript optional field, so the
JavaScript-falsy values are `none` and `some ""`; `children` is the optional
child array.  The `nativeHistoryEntry` metadata field is carried by no claim
and is read by no modelled function, so it is not represented. -/
inductive DItem where
  | mk (uriFsPath : String) (relativePath : String) (isDirectory : Bool)
       (deletionTime : Nat) (backupPath : Option String)
       (children : Option (List DItem)) : DItem

/-- Projection to the `uri.fsPath` field. -/
def DItem.uriFsPath : DItem → String
  | .mk u _ _ _ _ _ => u

/-- Projection to the `relativePath` field. -/
def DItem.relativePath : DItem → String
  | .mk _ r _ _ _ _ => r

/-- Projection to the `isDirectory` field. -/
def DItem.isDirectory : DItem → Bool
  | .mk _ _ d _ _ _ => d

/-- Projection to the `deletionTime` field. -/
def DItem.deletionTime : DItem → Nat
  | .mk _ _ _ t _ _ => t

/-- Projection to the optional `backupPath` field. -/
def DItem.backupPath : DItem → Option String
  | .mk _ _ _ _ b _ => b

/-- Projection to the optional `children` field. -/
def DItem.children : DItem → Option (List DItem)
  | .mk _ _ _ _ _ c => c

/-- JavaScript truthiness of the optional string `backupPath`: `undefined`
and `""` are falsy, so `!item.backupPath` holds exactly here. -/
def strFalsy : Option String → Bool
  | none => true
  | some s => s == ""

/-! ## The restoration filesystem (the `vscode.workspace.fs` capability)

Restoration threads an explicit filesystem value: `files` maps absolute paths
to byte contents, `dirs` records created directories.  `createDirectory` is
recursive-and-idempotent directory creation (it never fails, as with the
VS Code API and the test stub's `mkdir` with `recursive: true`); `writeFile`
overwrites; `readFile` fails exactly on absent paths. -/

structure RFS where
  files : List (String × List Nat)
  dirs : List String
  deriving DecidableEq

/-- Association-list overwrite used by `writeFile`. -/
def writeAssoc : List (String × List Nat) → String → List Nat → List (String × List Nat)
  | [], p, c => [(p, c)]
  | (q, d) :: rest, p, c =>
      if q == p then (q, c) :: rest else (q, d) :: writeAssoc rest p c

/-- Model of `vscode.workspace.fs.readFile`. -/
def rfsReadFile (fs : RFS) (p : String) : Option (List Nat) :=
  (fs.files.find? (fun e => e.1 == p)).map (·.2)

/-- Model of `vscode.workspace.fs.writeFile`. -/
def rfsWriteFile (fs : RFS) (p : String) (c : List Nat) : RFS :=
  ⟨writeAssoc fs.files p c, fs.dirs⟩

/-- Model of `vscode.workspace.fs.createDirectory` (recursive, succeeds when
the directory already exists). -/
def rfsCreateDirectory (fs : RFS) (p : String) : RFS :=
  if fs.dirs.contains p then fs else ⟨fs.files, fs.dirs ++ [p]⟩

/-! ## FileRestorer (file-restorer.ts)

Fallible operations return the unchanged-or-mutated filesystem together with
`Option String`: `none` is normal return, `some msg` is a thrown error with
message `msg`.  `attemptToOpenRestoredFile` catches every failure and is
state-free in the model, so it is not represented. -/

/-- Embedding of `FileRestorer.ensureDirectoryExists`: create the parent
directory of the target, tolerating (in the model: never seeing) failure. -/
def ensureDirectoryExists (fs : RFS) (fileUriPath : String) : RFS :=
  rfsCreateDirectory fs (dirname fileUriPath)

/-- Embedding of `FileRestorer.restoreFile`: reject a falsy `backupPath`
before any filesystem operation, then create the parent directory, read the
backup and overwrite the origin path.  The model keeps the message text of
`readBackupContent` up to the appended JavaScript error object. -/
def restoreFile (fs : RFS) (item : DItem) : RFS × Option String :=
  if strFalsy item.backupPath then
    (fs, some ("No backup path available for " ++ item.relativePath))
  else
    let bp := item.backupPath.getD ""
    let fs1 := ensureDirectoryExists fs item.uriFsPath
    match rfsReadFile fs1 bp with
    | none => (fs1, some ("Failed to read backup file " ++ bp))
    | some content => (rfsWriteFile fs1 item.uriFsPath content, none)

/-- Embedding of `FileRestorer.restoreEmptyDirectory`. -/
def restoreEmptyDirectory (fs : RFS) (item : DItem) : RFS × Option String :=
  (rfsCreateDirectory fs item.uriFsPath, none)

/-- Embedding of `FileRestorer.restoreItem`. -/
def restoreItem (fs : RFS) (item : DItem) : RFS × Option String :=
  if item.isDirectory then restoreEmptyDirectory fs item else restoreFile fs item

/-- Message of the aggregate failure thrown by `restoreFolder`. -/
def restoreFailMsg (restoredCount failedCount : Nat) : String :=
  "Restored " ++ toString restoredCount ++ " items, but " ++
    toString failedCount ++ " items failed to restore"

mutual

/-- Embedding of `FileRestorer.restoreFolderContents`: absent children give
the zero outcome; otherwise the folder itself is restored first (counting
into the tallies), then every child, continuing past per-child failures.
Returns the filesystem and the `(restored, failed)` counts. -/
def restoreFolderContents (folderItem : DItem) (fs : RFS) : RFS × Nat × Nat :=
  match folderItem with
  | .mk _ _ _ _ _ none => (fs, 0, 0)
  | .mk u r dflag t b (some cs) =>
      let self := DItem.mk u r dflag t b (some cs)
      let first :=
        match restoreItem fs self with
        | (fs', none) => (fs', 1, 0)
        | (fs', some _) => (fs', 0, 1)
      restoreChildItems cs first.1 first.2.1 first.2.2
termination_by structural folderItem

/-- Child loop of `restoreFolderContents`: a child that is a directory with a
present children array is recursed into; every other child goes through
`restoreItem`, a thrown error counting as one failure. -/
def restoreChildItems (cs : List DItem) (fs : RFS) (restoredAcc failedAcc : Nat) : RFS × Nat × Nat :=
  match cs with
  | [] => (fs, restoredAcc, failedAcc)
  | c :: rest =>
      let step :=
        if c.isDirectory && c.children.isSome then
          let r := restoreFolderContents c fs
          (r.1, restoredAcc + r.2.1, failedAcc + r.2.2)
        else
          match restoreItem fs c with
          | (fs', none) => (fs', restoredAcc + 1, failedAcc)
          | (fs', some _) => (fs', restoredAcc, failedAcc + 1)
      restoreChildItems rest step.1 step.2.1 step.2.2
termination_by structural cs

end

/-- Embedding of `FileRestorer.restoreFolder`: reject a non-directory or a
children-less item (`undefined` children; an empty array passes), then
restore the contents and throw the aggregate failure when any entry
failed. -/
def restoreFolder (fs : RFS) (folderItem : DItem) : RFS × Except String Unit :=
  if !folderItem.isDirectory || folderItem.children.isNone then
    (fs, .error "Invalid folder item for restoration")
  else
    let r := restoreFolderContents folderItem fs
    if r.2.2 > 0 then (r.1, .error (restoreFailMsg r.2.1 r.2.2))
    else (r.1, .ok ())

/-- Embedding of `FileRestorer.canRestoreItem`. -/
def canRestoreItem (item : DItem) : Bool × Option String :=
  if item.isDirectory then (true, none)
  else if strFalsy item.backupPath then (false, some "No backup path available")
  else (true, none)

/-- Embedding of `FileRestorer.canRestoreFolder`. -/
def canRestoreFolder (folderItem : DItem) : Bool × Option String :=
  if !folderItem.isDirectory then (false, some "Item is not a directory")
  else
    match folderItem.children with
    | none => (false, some "Folder has no children to restore")
    | some cs =>
        if cs.length == 0 then (false, some "Folder has no children to restore")
        else if (cs.filter (fun c => (canRestoreItem c).1)).length == 0 then
          (false, some "No restorable items in folder")
        else (true, none)

/-! ## Claims C5, C8, C10 (restoration engine) -/

/-- Scenario child with a valid backup, from the C5 scenario. -/
def c5OkChild : DItem := .mk "/ws/dir/ok.txt" "dir/ok.txt" false 5 (some "/backup/ok") none

/-- Scenario child without a backup path, from the C5 scenario. -/
def c5BadChild : DItem := .mk "/ws/dir/bad.txt" "dir/bad.txt" false 6 none none

/-- Scenario directory record with the two children of the C5 scenario. -/
def c5Folder : DItem := .mk "/ws/dir" "dir" true 10 (some "") (some [c5OkChild, c5BadChild])

/-- Scenario filesystem holding only the backup snapshot of `ok.txt`. -/
def c5FS (bytes : List Nat) : RFS := ⟨[("/backup/ok", bytes)], []⟩

/-- C5, counterexample: restoring the directory record with children
`[ok.txt (valid backup), bad.txt (no backup)]` reports TWO successfully
restored entries, not the single one the claim states — the creation of the
directory itself is counted as a restored item alongside `ok.txt`. -/
theorem c5_counterexample :
    (restoreFolderContents c5Folder (c5FS [9])).2.1 = 2 ∧
    (restoreFolder (c5FS [9]) c5Folder).2 =
      .error "Restored 2 items, but 1 items failed to restore" :=
  ⟨rfl, rfl⟩

/-- C5, amended: restoring the scenario directory writes `ok.txt`'s backup
content to disk, continues past the `bad.txt` failure, and reports overall
failure counting two successfully restored entries (the directory itself and
`ok.txt`) and one failed entry; `bad.txt`'s individual failure is the error
`No backup path available for dir/bad.txt`; and the restored `ok.txt`
remains on disk in the final state. -/
theorem c5_restoreFolder_partial_failure (bytes : List Nat) :
    restoreFolder (c5FS bytes) c5Folder =
      (⟨[("/backup/ok", bytes), ("/ws/dir/ok.txt", bytes)], ["/ws/dir"]⟩,
       .error (restoreFailMsg 2 1)) ∧
    restoreFailMsg 2 1 = "Restored 2 items, but 1 items failed to restore" ∧
    restoreItem (c5FS bytes) c5BadChild =
      (c5FS bytes, some "No backup path available for dir/bad.txt") ∧
    rfsReadFile (restoreFolder (c5FS bytes) c5Folder).1 "/ws/dir/ok.txt" = some bytes :=
  ⟨rfl, rfl, rfl, rfl⟩

/-- C8: a file record whose backup path is JavaScript-falsy (absent or the
empty string) makes `restoreItem` fail with the `No backup path available`
error before any filesystem operation — the returned filesystem is exactly
the input one: no directory creation, no snapshot read, no write. -/
theorem c8_restoreItem_no_backup (fs : RFS) (item : DItem)
    (hfile : item.isDirectory = false)
    (hbp : strFalsy item.backupPath = true) :
    restoreItem fs item =
      (fs, some ("No backup path available for " ++ item.relativePath)) := by
  simp [restoreItem, restoreFile, hfile, hbp]

/-- C8, witness: the theorem applied to a concrete empty-string backup path. -/
theorem c8_witness :
    restoreItem ⟨[("/b", [1])], []⟩ (.mk "/ws/a.txt" "a.txt" false 1 (some "") none)
      = (⟨[("/b", [1])], []⟩, some ("No backup path available for " ++ "a.txt")) :=
  c8_restoreItem_no_backup _ _ rfl rfl

/-- C10: the asymmetry of the restoration pre-check validators.
`canRestoreItem` accepts every directory item unconditionally and rejects a
file item with reason `No backup path available` exactly when its backup
path is absent or empty; `canRestoreFolder` rejects non-directories,
missing or empty children lists, and folders none of whose direct children
passes `canRestoreItem`, and accepts otherwise — while `restoreFolder`
itself accepts a folder with an empty children list and succeeds on it. -/
theorem c10_validator_asymmetry :
    (∀ u r t b ch, canRestoreItem (.mk u r true t b ch) = (true, none)) ∧
    (∀ u r t ch, canRestoreItem (.mk u r false t none ch) =
        (false, some "No backup path available")) ∧
    (∀ u r t s ch, canRestoreItem (.mk u r false t (some s) ch) =
        (if s == "" then (false, some "No backup path available") else (true, none))) ∧
    (∀ u r t b ch, canRestoreFolder (.mk u r false t b ch) =
        (false, some "Item is not a directory")) ∧
    (∀ u r t b, canRestoreFolder (.mk u r true t b none) =
        (false, some "Folder has no children to restore")) ∧
    (∀ u r t b, canRestoreFolder (.mk u r true t b (some [])) =
        (false, some "Folder has no children to restore")) ∧
    (∀ u r t b cs, cs ≠ [] → cs.filter (fun c => (canRestoreItem c).1) = [] →
        canRestoreFolder (.mk u r true t b (some cs)) =
          (false, some "No restorable items in folder")) ∧
    (∀ u r t b cs, cs ≠ [] → cs.filter (fun c => (canRestoreItem c).1) ≠ [] →
        canRestoreFolder (.mk u r true t b (some cs)) = (true, none)) ∧
    (∀ fs u r t b, restoreFolder fs (.mk u r true t b (some [])) =
        (rfsCreateDirectory fs u, .ok ())) := by
  refine ⟨?_, ?_, ?_, ?_, ?_, ?_, ?_, ?_, ?_⟩
  · intro u r t b ch
    simp [canRestoreItem, DItem.isDirectory]
  · intro u r t ch
    simp [canRestoreItem, DItem.isDirectory, DItem.backupPath, strFalsy]
  · intro u r t s ch
    by_cases hs : s = ""
    · simp [canRestoreItem, DItem.isDirectory, DItem.backupPath, strFalsy, hs]
    · simp [canRestoreItem, DItem.isDirectory, DItem.backupPath, strFalsy, hs]
  · intro u r t b ch
    simp [canRestoreFolder, DItem.isDirectory]
  · intro u r t b
    simp [canRestoreFolder, DItem.isDirectory, DItem.children]
  · intro u r t b
    simp [canRestoreFolder, DItem.isDirectory, DItem.children]
  · intro u r t b cs hne hfil
    simp [canRestoreFolder, DItem.isDirectory, DItem.children, hne, hfil,
      List.length_eq_zero]
  · intro u r t b cs hne hfil
    simp [canRestoreFolder, DItem.isDirectory, DItem.children, hne, hfil,
      List.length_eq_zero]
  · intro fs u r t b
    simp [restoreFolder, DItem.isDirectory, DItem.children, restoreFolderContents,
      restoreChildItems, restoreItem, restoreEmptyDirectory, DItem.uriFsPath]

/-- C10, witness: the validator conjuncts applied at concrete items,
discharging the non-emptiness and filter hypotheses by computation. -/
theorem c10_witness :
    canRestoreFolder (.mk "/d" "d" true 0 none (some [.mk "/f" "f" false 0 none none])) =
      (false, some "No restorable items in folder") ∧
    canRestoreFolder (.mk "/d" "d" true 0 none (some [.mk "/f" "f" false 0 (some "/b") none])) =
      (true, none) ∧
    restoreFolder ⟨[], []⟩ (.mk "/d" "d" true 0 none (some [])) =
      (rfsCreateDirectory ⟨[], []⟩ "/d", .ok ()) :=
  ⟨c10_validator_asymmetry.2.2.2.2.2.2.1 "/d" "d" 0 none _ (List.cons_ne_nil _ _) rfl,
   c10_validator_asymmetry.2.2.2.2.2.2.2.1 "/d" "d" 0 none _ (List.cons_ne_nil _ _) (List.cons_ne_nil _ _),
   c10_validator_asymmetry.2.2.2.2.2.2.2.2 ⟨[], []⟩ "/d" "d" 0 none⟩

/-! ## Lemmas about the JavaScript sort and the comparators -/

/-- Membership in an insertion is membership in the parts. -/
theorem jsInsertBy_mem {cmp : α → α → Int} {x y : α} {l : List α} :
    y ∈ jsInsertBy cmp x l ↔ y = x ∨ y ∈ l := by
  induction l with
  | nil => simp [jsInsertBy]
  | cons z zs ih =>
    by_cases h : cmp x z ≤ 0
    · simp [jsInsertBy, h]
    · simp [jsInsertBy, h, ih]
      tauto

/-- The sort permutes nothing in or out. -/
theorem jsSortBy_mem {cmp : α → α → Int} {y : α} {l : List α} :
    y ∈ jsSortBy cmp l ↔ y ∈ l := by
  induction l with
  | nil => simp [jsSortBy]
  | cons z zs ih => simp [jsSortBy, jsInsertBy_mem, ih]

/-- Insertion grows the length by one. -/
theorem jsInsertBy_length {cmp : α → α → Int} {x : α} {l : List α} :
    (jsInsertBy cmp x l).length = l.length + 1 := by
  induction l with
  | nil => simp [jsInsertBy]
  | cons z zs ih =>
    by_cases h : cmp x z ≤ 0 <;> simp [jsInsertBy, h, ih]

/-- The sort preserves length. -/
theorem jsSortBy_length {cmp : α → α → Int} {l : List α} :
    (jsSortBy cmp l).length = l.length := by
  induction l with
  | nil => rfl
  | cons z zs ih => simp [jsSortBy, jsInsertBy_length, ih]

/-- The sort result is empty only for empty input. -/
theorem jsSortBy_eq_nil {cmp : α → α → Int} {l : List α}
    (h : jsSortBy cmp l = []) : l = [] := by
  have := @jsSortBy_length _ cmp l
  rw [h] at this
  exact List.length_eq_zero.mp this.symm

/-- Insertion preserves pairwise sortedness for a total transitive
comparator. -/
theorem jsInsertBy_pairwise {cmp : α → α → Int}
    (htot : ∀ a b, cmp a b ≤ 0 ∨ cmp b a ≤ 0)
    (htrans : ∀ a b c, cmp a b ≤ 0 → cmp b c ≤ 0 → cmp a c ≤ 0)
    (x : α) {l : List α} (hp : l.Pairwise (fun a b => cmp a b ≤ 0)) :
    (jsInsertBy cmp x l).Pairwise (fun a b => cmp a b ≤ 0) := by
  induction hp with
  | nil => simp [jsInsertBy]
  | @cons y ys hy hys ih =>
    by_cases h : cmp x y ≤ 0
    · rw [jsInsertBy, if_pos h]
      refine List.pairwise_cons.mpr ⟨?_, List.pairwise_cons.mpr ⟨hy, hys⟩⟩
      intro z hz
      rcases List.mem_cons.mp hz with heq | hz
      · rw [heq]
        exact h
      · exact htrans x y z h (hy z hz)
    · rw [jsInsertBy, if_neg h]
      refine List.pairwise_cons.mpr ⟨?_, ih⟩
      intro z hz
      rcases jsInsertBy_mem.mp hz with heq | hz
      · rw [heq]
        rcases htot x y with h' | h'
        · exact absurd h' h
        · exact h'
      · exact hy z hz

/-- The JavaScript sort produces a pairwise-sorted list for a total
transitive comparator. -/
theorem jsSortBy_pairwise {cmp : α → α → Int}
    (htot : ∀ a b, cmp a b ≤ 0 ∨ cmp b a ≤ 0)
    (htrans : ∀ a b c, cmp a b ≤ 0 → cmp b c ≤ 0 → cmp a c ≤ 0)
    (l : List α) :
    (jsSortBy cmp l).Pairwise (fun a b => cmp a b ≤ 0) := by
  induction l with
  | nil => simp [jsSortBy]
  | cons z zs ih => exact jsInsertBy_pairwise htot htrans z ih

/-- Head of the sort by descending optional keys is a key-maximal element,
provided every element has a key (the comparator returns 0, not an order
decision, when a key is missing). -/
theorem jsSortBy_key_max (key : α → Option Nat) (l : List α)
    (hall : ∀ x ∈ l, (key x).isSome) {n : α} {rest : List α}
    (hs : jsSortBy (fun a b =>
            match key a, key b with
            | some ka, some kb => (kb : Int) - (ka : Int)
            | _, _ => 0) l = n :: rest) :
    n ∈ l ∧ ∀ x ∈ l, (key x).getD 0 ≤ (key n).getD 0 := by
  induction l generalizing n rest with
  | nil => simp [jsSortBy] at hs
  | cons a as ih =>
    rw [jsSortBy] at hs
    rcases hsort : jsSortBy (fun a b =>
        match key a, key b with
        | some ka, some kb => (kb : Int) - (ka : Int)
        | _, _ => 0) as with _ | ⟨m, ms⟩
    · have has : as = [] := jsSortBy_eq_nil hsort
      subst has
      rw [hsort, jsInsertBy] at hs
      cases hs
      exact ⟨List.mem_cons_self _ _, by
        intro x hx
        rcases List.mem_cons.mp hx with rfl | hx
        · exact le_refl _
        · simp at hx⟩
    · have hm := ih (fun x hx => hall x (List.mem_cons_of_mem a hx)) hsort
      rcases hm with ⟨hmem, hmax⟩
      rcases Option.isSome_iff_exists.mp (hall a (List.mem_cons_self a as)) with ⟨ka, hka⟩
      rcases Option.isSome_iff_exists.mp
        (hall m (List.mem_cons_of_mem a hmem)) with ⟨km, hkm⟩
      rw [hsort, jsInsertBy] at hs
      by_cases hcmp : (match key a, key m with
          | some ka, some kb => (kb : Int) - (ka : Int)
          | _, _ => 0) ≤ 0
      · rw [if_pos hcmp] at hs
        simp only [hka, hkm] at hcmp
        have hcmp' : (km : Int) - (ka : Int) ≤ 0 := hcmp
        have hlt : km ≤ ka := by omega
        cases hs
        refine ⟨List.mem_cons_self _ _, ?_⟩
        intro x hx
        rcases List.mem_cons.mp hx with rfl | hx
        · exact le_refl _
        · have hmx := hmax x hx
          rw [hka] at *
          rw [hkm] at hmx
          simp only [Option.getD_some] at *
          omega
      · rw [if_neg hcmp] at hs
        simp only [hka, hkm] at hcmp
        have hcmp' : ¬ ((km : Int) - (ka : Int) ≤ 0) := hcmp
        have hlt : ka < km := by omega
        cases hs
        refine ⟨List.mem_cons_of_mem a hmem, ?_⟩
        intro x hx
        rcases List.mem_cons.mp hx with rfl | hx
        · rw [hka, hkm]
          simp only [Option.getD_some]
          omega
        · exact hmax x hx

/-- Characters with equal code points are equal. -/
theorem char_eq_of_toNat_eq {a b : Char} (h : a.toNat = b.toNat) : a = b :=
  Char.eq_of_val_eq (UInt32.ext h)

/-- Swapping the arguments of `charListCmp` swaps the verdict. -/
theorem charListCmp_swap (a : List Char) : ∀ b, charListCmp b a = (charListCmp a b).swap := by
  induction a with
  | nil => intro b; cases b <;> rfl
  | cons x xs ih =>
    intro b
    cases b with
    | nil => rfl
    | cons y ys =>
      simp only [charListCmp]
      rcases Nat.lt_trichotomy x.toNat y.toNat with h | h | h
      · rw [if_neg (by omega), if_pos h, if_pos h]
        rfl
      · rw [if_neg (by omega), if_neg (by omega), if_neg (by omega), if_neg (by omega)]
        exact ih ys
      · rw [if_pos h, if_neg (by omega), if_pos h]
        rfl

/-- An `eq` verdict of `charListCmp` is list equality. -/
theorem charListCmp_eq {a : List Char} : ∀ {b}, charListCmp a b = .eq → a = b := by
  induction a with
  | nil => intro b h; cases b with
    | nil => rfl
    | cons y ys => simp [charListCmp] at h
  | cons x xs ih =>
    intro b h
    cases b with
    | nil => simp [charListCmp] at h
    | cons y ys =>
      simp only [charListCmp] at h
      by_cases h1 : x.toNat < y.toNat
      · rw [if_pos h1] at h; exact absurd h (by simp)
      · rw [if_neg h1] at h
        by_cases h2 : y.toNat < x.toNat
        · rw [if_pos h2] at h; exact absurd h (by simp)
        · rw [if_neg h2] at h
          have hx : x = y := char_eq_of_toNat_eq (by omega)
          rw [hx, ih h]

/-- Transitivity bundle for `charListCmp`: the non-`gt` relation is
transitive, and a strict `lt` on either side forces a strict `lt`. -/
theorem charListCmp_trans (a : List Char) : ∀ b c,
    charListCmp a b ≠ .gt → charListCmp b c ≠ .gt →
    (charListCmp a c ≠ .gt ∧
      ((charListCmp a b = .lt ∨ charListCmp b c = .lt) → charListCmp a c = .lt)) := by
  induction a with
  | nil =>
    intro b c hab hbc
    cases c with
    | nil =>
      refine ⟨by simp [charListCmp], ?_⟩
      intro hor
      rcases hor with h | h
      · cases b with
        | nil => simp [charListCmp] at h
        | cons y ys => simp [charListCmp] at hbc
      · cases b with
        | nil => simp [charListCmp] at h
        | cons y ys => simp [charListCmp] at h
    | cons z zs => exact ⟨by simp [charListCmp], fun _ => by simp [charListCmp]⟩
  | cons x xs ih =>
    intro b c hab hbc
    cases b with
    | nil => simp [charListCmp] at hab
    | cons y ys =>
      cases c with
      | nil => simp [charListCmp] at hbc
      | cons z zs =>
        simp only [charListCmp] at hab hbc ⊢
        by_cases hxy1 : x.toNat < y.toNat
        · rw [if_pos hxy1] at hab
          by_cases hyz1 : y.toNat < z.toNat
          · rw [if_pos (by omega : x.toNat < z.toNat)]
            exact ⟨by simp, fun _ => rfl⟩
          · by_cases hyz2 : z.toNat < y.toNat
            · rw [if_neg hyz1, if_pos hyz2] at hbc
              exact absurd rfl hbc
            · rw [if_pos (by omega : x.toNat < z.toNat)]
              exact ⟨by simp, fun _ => rfl⟩
        · by_cases hxy2 : y.toNat < x.toNat
          · rw [if_neg hxy1, if_pos hxy2] at hab
            exact absurd rfl hab
          · rw [if_neg hxy1, if_neg hxy2] at hab
            by_cases hyz1 : y.toNat < z.toNat
            · rw [if_pos (by omega : x.toNat < z.toNat)]
              exact ⟨by simp, fun _ => rfl⟩
            · by_cases hyz2 : z.toNat < y.toNat
              · rw [if_neg hyz1, if_pos hyz2] at hbc
                exact absurd rfl hbc
              · rw [if_neg hyz1, if_neg hyz2] at hbc
                rw [if_neg (by omega : ¬ x.toNat < z.toNat),
                    if_neg (by omega : ¬ z.toNat < x.toNat),
                    if_neg hxy1, if_neg hxy2, if_neg hyz1, if_neg hyz2]
                exact ih ys zs hab hbc

/-- Unfolding of `localeCompare a b ≤ 0` into its primary/secondary
comparison structure. -/
theorem localeCompare_le_iff (a b : String) :
    localeCompare a b ≤ 0 ↔
      (charListCmp (a.data.map Char.toLower) (b.data.map Char.toLower) = .lt ∨
       (charListCmp (a.data.map Char.toLower) (b.data.map Char.toLower) = .eq ∧
        charListCmp a.data b.data ≠ .gt)) := by
  unfold localeCompare
  rcases h1 : charListCmp (a.data.map Char.toLower) (b.data.map Char.toLower) with _ | _ | _
  · simp
  · rcases h2 : charListCmp a.data b.data with _ | _ | _ <;> simp
  · simp

/-- Totality of the locale comparison. -/
theorem localeCompare_total (a b : String) :
    localeCompare a b ≤ 0 ∨ localeCompare b a ≤ 0 := by
  rw [localeCompare_le_iff, localeCompare_le_iff]
  rw [charListCmp_swap (a.data.map Char.toLower) (b.data.map Char.toLower),
      charListCmp_swap a.data b.data]
  rcases charListCmp (a.data.map Char.toLower) (b.data.map Char.toLower) with _ | _ | _ <;>
    rcases h : charListCmp a.data b.data with _ | _ | _ <;> simp [Ordering.swap]

/-- Transitivity of the locale comparison. -/
theorem localeCompare_trans (a b c : String)
    (hab : localeCompare a b ≤ 0) (hbc : localeCompare b c ≤ 0) :
    localeCompare a c ≤ 0 := by
  rw [localeCompare_le_iff] at hab hbc ⊢
  rcases hab with hab | ⟨hab, hab2⟩
  · rcases hbc with hbc | ⟨hbc, _⟩
    · left
      exact (charListCmp_trans _ _ _ (by simp [hab]) (by simp [hbc])).2 (Or.inl hab)
    · left
      rw [← charListCmp_eq hbc]
      exact hab
  · rcases hbc with hbc | ⟨hbc, hbc2⟩
    · left
      rw [charListCmp_eq hab]
      exact hbc
    · right
      constructor
      · rw [charListCmp_eq hab]
        exact hbc
      · exact (charListCmp_trans _ _ _ hab2 hbc2).1

/-! ## ItemOrganizer (item-organizer.ts)

The organizer mutates shared `DeletedItem` objects through a `Map` keyed by
relative folder path: a synthetic folder object is created once per distinct
directory path, files are pushed into folder children, folder timestamps are
updated, and `buildHierarchy` then attaches folder objects to their parents'
children arrays — all through references into the map.  The embedding makes
the reference structure explicit: folder objects live in an insertion-ordered
association list (`FolderStore`, the `folderMap`), and a child is either an
original flat item (a value, never mutated after insertion) or a reference
to a folder by its map key.  The final forest materializes the references by
reading the finished store (`resolveChild`), which is exactly what following
the JavaScript object references performs. -/

/-- Child slot of a synthetic folder object: a flat deleted item, or a
reference to another folder object held in the map. -/
inductive FChild where
  | item (it : DItem)
  | folderRef (key : String)

/-- Mutable state of one synthetic folder object: the fields of
`createFolderItem`'s result that the organizer ever updates or reads
(`deletionTime` and `children`); its `uri`, `relativePath`, `isDirectory`
and `backupPath` are determined by the map key. -/
structure FolderEnt where
  deletionTime : Nat
  children : List FChild

/-- The `folderMap`: an insertion-ordered association list, as a JavaScript
`Map` iterates in insertion order. -/
abbrev FolderStore := List (String × FolderEnt)

/-- Lookup (`folderMap.get`). -/
def storeLookup (key : String) (st : FolderStore) : Option FolderEnt :=
  (st.find? (fun e => e.1 == key)).map (·.2)

/-- Key test (`folderMap.has`). -/
def storeHas (key : String) (st : FolderStore) : Bool :=
  st.any (fun e => e.1 == key)

/-- In-place update of the object stored under a key; a missing key leaves
the store unchanged (the JavaScript code guards with optional chaining). -/
def storeUpdate (key : String) (f : FolderEnt → FolderEnt) : FolderStore → FolderStore
  | [] => []
  | (k, fe) :: rest =>
      if k == key then (k, f fe) :: rest else (k, fe) :: storeUpdate key f rest

/-- Embedding of `ItemOrganizer.isRootDirectory`. -/
def isRootDirectory (dirPath : String) : Bool := dirPath == "." || dirPath == ""

/-- Embedding of `ItemOrganizer.isNotRootDirectory`. -/
def isNotRootDirectory (dirPath : String) : Bool := !isRootDirectory dirPath

/-- The paths visited by `addPathHierarchy`'s while loop, computed on the
reversed segment list of the starting directory path: each step emits the
current path unless it is the root and then drops the last segment, which is
what `currentPath = path.dirname(currentPath)` does on relative
slash-separated paths.  (On an absolute input the original loop would not
terminate, since `dirname '/' = '/'` is not a root in `isRootDirectory`'s
sense; such inputs cannot arise from `path.relative` output.) -/
def hierarchyChainRev : List String → List String
  | [] => []
  | seg :: rest =>
      let p := joinSlash (seg :: rest).reverse
      if isRootDirectory p then [] else p :: hierarchyChainRev rest

/-- Embedding of `ItemOrganizer.addPathHierarchy`: add the directory path and
all its ancestors (up to, excluding, the root) to the set.  The JavaScript
`Set` is an insertion-ordered list without duplicates. -/
def addPathHierarchy (dirPath : String) (pathSet : List String) : List String :=
  (hierarchyChainRev (splitSlash dirPath).reverse).foldl
    (fun s x => if s.contains x then s else s ++ [x]) pathSet

/-- Embedding of `ItemOrganizer.extractAllDirectoryPaths`. -/
def extractAllDirectoryPaths (deletedItems : List DItem) : List String :=
  deletedItems.foldl
    (fun acc it =>
      let dirPath := dirname it.relativePath
      if isNotRootDirectory dirPath then addPathHierarchy dirPath acc else acc)
    []

/-- Time a child contributes to `findLatestDeletionTime`: a flat item's own
`deletionTime`; for a folder reference, the referenced object's current
`deletionTime` (no folder reference exists yet when the only caller,
`updateFolderTimestamps`, runs — folders are attached in `buildHierarchy`
afterwards). -/
def childTimeIn (st : FolderStore) : FChild → Nat
  | .item it => it.deletionTime
  | .folderRef k => ((storeLookup k st).map (·.deletionTime)).getD 0

/-- Embedding of `ItemOrganizer.findLatestDeletionTime`: a `reduce` with the
epoch-zero sentinel as the initial accumulator. -/
def findLatestDeletionTime (st : FolderStore) (children : List FChild) : Nat :=
  children.foldl
    (fun latest c => if latest < childTimeIn st c then childTimeIn st c else latest) 0

/-- Embedding of `ItemOrganizer.updateFolderTimestamps`: every folder with a
non-empty children list gets the latest child deletion time when that
exceeds its current one. -/
def updateFolderTimestamps (st : FolderStore) : FolderStore :=
  st.map (fun e =>
    if e.2.children.isEmpty then e
    else
      let latest := findLatestDeletionTime st e.2.children
      if e.2.deletionTime < latest then (e.1, ⟨latest, e.2.children⟩) else e)

/-- Embedding of `ItemOrganizer.populateFoldersWithFiles`: push each item
into the children of the folder at its parent directory path. -/
def populateFoldersWithFiles (fm : FolderStore) (deletedItems : List DItem) : FolderStore :=
  deletedItems.foldl
    (fun m it =>
      let dirPath := dirname it.relativePath
      if isNotRootDirectory dirPath then
        storeUpdate dirPath (fun fe => ⟨fe.deletionTime, fe.children ++ [.item it]⟩) m
      else m)
    fm

/-- Embedding of `ItemOrganizer.createFolderMap`: materialize one folder
object per discovered directory path (epoch-zero sentinel time, empty
children), attach the files, then aggregate the timestamps. -/
def createFolderMap (deletedItems : List DItem) : FolderStore :=
  let allPaths := extractAllDirectoryPaths deletedItems
  let fm : FolderStore := allPaths.foldl
    (fun m dirPath => if storeHas dirPath m then m else m ++ [(dirPath, ⟨0, []⟩)]) []
  updateFolderTimestamps (populateFoldersWithFiles fm deletedItems)

/-- Embedding of `ItemOrganizer.extractRootItems`. -/
def extractRootItems (deletedItems : List DItem) : List DItem :=
  deletedItems.filter (fun it => isRootDirectory (dirname it.relativePath))

/-- Display-name and kind of a child slot, as read by the sort comparator
through the object reference. -/
def fchildIsDirectory : FChild → Bool
  | .item it => it.isDirectory
  | .folderRef _ => true

/-- Relative path of a child slot as the comparator sees it. -/
def fchildRelativePath : FChild → String
  | .item it => it.relativePath
  | .folderRef k => k

/-- Embedding of `ItemOrganizer.getDisplayName` (the conditional in the
source returns the basename in both branches). -/
def getDisplayName (item : DItem) : String :=
  if item.isDirectory then basename item.relativePath else basename item.relativePath

/-- Comparator of `ItemOrganizer.sortItems`: folders first, then
`localeCompare` of the display names. -/
def sortItemsCmp (a b : DItem) : Int :=
  if a.isDirectory != b.isDirectory then (if a.isDirectory then -1 else 1)
  else localeCompare (getDisplayName a) (getDisplayName b)

/-- Embedding of `ItemOrganizer.sortItems`. -/
def sortItems (items : List DItem) : List DItem := jsSortBy sortItemsCmp items

/-- The same comparator applied through child references (the values the
comparator reads are `isDirectory` and the basename of `relativePath`,
which for a folder reference come from the referenced folder object). -/
def fchildCmp (a b : FChild) : Int :=
  if fchildIsDirectory a != fchildIsDirectory b then (if fchildIsDirectory a then -1 else 1)
  else localeCompare (basename (fchildRelativePath a)) (basename (fchildRelativePath b))

/-- Embedding of `ItemOrganizer.sortChildrenInFolder` on the stored folder
object. -/
def sortChildrenInFolder (key : String) (st : FolderStore) : FolderStore :=
  storeUpdate key (fun fe => ⟨fe.deletionTime, jsSortBy fchildCmp fe.children⟩) st

/-- Embedding of `ItemOrganizer.buildHierarchy`: iterate the folder map in
insertion order; a folder whose parent path is the root or absent from the
map has its children sorted and is promoted to the top level, every other
folder is appended to its parent's children.  Returns the final store and
the top-level slots (root items first, then promoted folders in iteration
order). -/
def buildHierarchy (fm : FolderStore) (rootItems : List DItem) : FolderStore × List FChild :=
  (fm.map (·.1)).foldl
    (fun acc folderPath =>
      let parentPath := dirname folderPath
      if isRootDirectory parentPath || !storeHas parentPath acc.1 then
        (sortChildrenInFolder folderPath acc.1, acc.2 ++ [.folderRef folderPath])
      else
        (storeUpdate parentPath
          (fun fe => ⟨fe.deletionTime, fe.children ++ [.folderRef folderPath]⟩) acc.1,
         acc.2))
    (fm, rootItems.map .item)

/-- Materialization of a child slot into the `DeletedItem` tree it denotes:
follow folder references through the finished store, rebuilding the folder
objects (`createFolderItem` fields plus the accumulated `deletionTime` and
`children`).  The fuel bounds reference-chasing depth; the callers pass more
fuel than the store has entries, which no reference chain can exhaust since
each hop strictly extends the key path. -/
def resolveChild (workspaceRoot : String) (st : FolderStore) : Nat → FChild → DItem
  | _, .item it => it
  | 0, .folderRef k => .mk (pathJoin workspaceRoot k) k true 0 (some "") (some [])
  | fuel + 1, .folderRef k =>
      match storeLookup k st with
      | none => .mk (pathJoin workspaceRoot k) k true 0 (some "") (some [])
      | some fe =>
          .mk (pathJoin workspaceRoot k) k true fe.deletionTime (some "")
            (some (fe.children.map (resolveChild workspaceRoot st fuel)))

/-- Embedding of `ItemOrganizer.organizeItemsByFolder`: the full pipeline
from the flat record list to the sorted top-level forest. -/
def organizeItemsByFolder (workspaceRoot : String) (deletedItems : List DItem) : List DItem :=
  if deletedItems.isEmpty then []
  else
    let folderMap := createFolderMap deletedItems
    let rootItems := extractRootItems deletedItems
    let built := buildHierarchy folderMap rootItems
    sortItems (built.2.map (resolveChild workspaceRoot built.1 (built.1.length + 1)))

/-! ## Lemmas about the folder store -/

/-- Unfolding `storeLookup` over a cons cell. -/
theorem storeLookup_cons (key k : String) (fe : FolderEnt) (rest : FolderStore) :
    storeLookup key ((k, fe) :: rest) =
      if k == key then some fe else storeLookup key rest := by
  by_cases h : k = key
  · subst h
    simp [storeLookup, List.find?]
  · simp [storeLookup, List.find?, (by simpa using h : (k == key) = false)]

/-- Unfolding `storeUpdate` over a cons cell. -/
theorem storeUpdate_cons (key : String) (f : FolderEnt → FolderEnt)
    (k : String) (fe : FolderEnt) (rest : FolderStore) :
    storeUpdate key f ((k, fe) :: rest) =
      if k == key then (k, f fe) :: rest else (k, fe) :: storeUpdate key f rest := rfl

/-- Updating a key and reading it back applies the update. -/
theorem storeLookup_update_self (key : String) (f : FolderEnt → FolderEnt) (st : FolderStore) :
    storeLookup key (storeUpdate key f st) = (storeLookup key st).map f := by
  induction st with
  | nil => rfl
  | cons e rest ih =>
    rcases e with ⟨k, fe⟩
    by_cases h : k = key
    · subst h
      simp [storeUpdate_cons, storeLookup_cons]
    · have hb : (k == key) = false := by simpa using h
      simp [storeUpdate_cons, storeLookup_cons, hb, ih]

/-- Updating one key leaves every other key unchanged. -/
theorem storeLookup_update_other (key upd : String) (f : FolderEnt → FolderEnt)
    (st : FolderStore) (h : upd ≠ key) :
    storeLookup key (storeUpdate upd f st) = storeLookup key st := by
  induction st with
  | nil => rfl
  | cons e rest ih =>
    rcases e with ⟨k, fe⟩
    by_cases hk : k = upd
    · subst hk
      have hb : (k == key) = false := by simpa using h
      simp [storeUpdate_cons, storeLookup_cons, hb]
    · have hb : (k == upd) = false := by simpa using hk
      by_cases hkey : k = key
      · subst hkey
        simp [storeUpdate_cons, storeLookup_cons, hb]
      · simp [storeUpdate_cons, storeLookup_cons, hb,
          (by simpa using hkey : (k == key) = false), ih]

/-- Reading a key after appending one entry. -/
theorem storeLookup_append_one (key d : String) (v : FolderEnt) (st : FolderStore) :
    storeLookup key (st ++ [(d, v)]) =
      match storeLookup key st with
      | some fe => some fe
      | none => if d == key then some v else none := by
  induction st with
  | nil =>
    simp only [List.nil_append, storeLookup_cons]
    by_cases h : d = key
    · simp [h, storeLookup]
    · simp [(by simpa using h : (d == key) = false), storeLookup]
  | cons e rest ih =>
    rcases e with ⟨k, fe⟩
    by_cases hk : k = key
    · subst hk
      simp [storeLookup_cons]
    · simp [storeLookup_cons, (by simpa using hk : (k == key) = false), ih]

/-- Characterization of `populateFoldersWithFiles`: each key's children gain
exactly the items whose parent directory is that key, in input order. -/
theorem populate_lookup (deletedItems : List DItem) :
    ∀ (st : FolderStore) (key : String),
      storeLookup key (populateFoldersWithFiles st deletedItems) =
        (storeLookup key st).map (fun fe =>
          ⟨fe.deletionTime, fe.children ++
            ((deletedItems.filter (fun it =>
              isNotRootDirectory (dirname it.relativePath) &&
                (dirname it.relativePath == key))).map .item)⟩) := by
  induction deletedItems with
  | nil =>
    intro st key
    rcases h : storeLookup key st with _ | fe
    · simp [populateFoldersWithFiles, h]
    · simp [populateFoldersWithFiles, h]
  | cons it rest ih =>
    intro st key
    have hstep : populateFoldersWithFiles st (it :: rest) =
        populateFoldersWithFiles
          (if isNotRootDirectory (dirname it.relativePath) then
             storeUpdate (dirname it.relativePath)
               (fun fe => ⟨fe.deletionTime, fe.children ++ [.item it]⟩) st
           else st) rest := rfl
    rw [hstep, ih]
    by_cases hroot : isNotRootDirectory (dirname it.relativePath) = true
    · by_cases hkey : dirname it.relativePath = key
      · rw [if_pos hroot, hkey, storeLookup_update_self]
        have hfil : (it :: rest).filter (fun it =>
              isNotRootDirectory (dirname it.relativePath) &&
                (dirname it.relativePath == key)) =
            it :: rest.filter (fun it =>
              isNotRootDirectory (dirname it.relativePath) &&
                (dirname it.relativePath == key)) := by
          rw [List.filter_cons_of_pos]
          simp [hkey, hkey ▸ hroot]
        rw [hfil]
        rcases storeLookup key st with _ | fe
        · rfl
        · simp
      · rw [if_pos hroot, storeLookup_update_other _ _ _ _ hkey]
        have hfil : (it :: rest).filter (fun it =>
              isNotRootDirectory (dirname it.relativePath) &&
                (dirname it.relativePath == key)) =
            rest.filter (fun it =>
              isNotRootDirectory (dirname it.relativePath) &&
                (dirname it.relativePath == key)) := by
          rw [List.filter_cons_of_neg]
          simp [hkey]
        rw [hfil]
    · rw [if_neg hroot]
      have hroot' : isNotRootDirectory (dirname it.relativePath) = false := by
        simpa using hroot
      have hfil : (it :: rest).filter (fun it =>
            isNotRootDirectory (dirname it.relativePath) &&
              (dirname it.relativePath == key)) =
          rest.filter (fun it =>
            isNotRootDirectory (dirname it.relativePath) &&
              (dirname it.relativePath == key)) := by
        rw [List.filter_cons_of_neg]
        simp [hroot']
      rw [hfil]

/-- Every entry of the freshly created folder map carries the epoch-zero
sentinel and empty children, under a non-root key drawn from the path set. -/
theorem creation_lookup (allPaths : List String)
    (hnr : ∀ x ∈ allPaths, isNotRootDirectory x = true) :
    ∀ (key : String) (fe : FolderEnt),
      storeLookup key
        (allPaths.foldl
          (fun m dirPath => if storeHas dirPath m then m else m ++ [(dirPath, ⟨0, []⟩)]) []) =
        some fe →
      fe = ⟨0, []⟩ ∧ isNotRootDirectory key = true := by
  have main : ∀ (l : List String) (init : FolderStore),
      (∀ x ∈ l, isNotRootDirectory x = true) →
      (∀ key fe, storeLookup key init = some fe → fe = ⟨0, []⟩ ∧ isNotRootDirectory key = true) →
      ∀ key fe,
        storeLookup key
          (l.foldl (fun m dirPath => if storeHas dirPath m then m else m ++ [(dirPath, ⟨0, []⟩)]) init) =
          some fe →
        fe = ⟨0, []⟩ ∧ isNotRootDirectory key = true := by
    intro l
    induction l with
    | nil => intro init hl hinit key fe h; exact hinit key fe h
    | cons d rest ih =>
      intro init hl hinit key fe h
      simp only [List.foldl] at h
      by_cases hd : storeHas d init = true
      · rw [if_pos hd] at h
        exact ih init (fun x hx => hl x (List.mem_cons_of_mem d hx)) hinit key fe h
      · rw [if_neg hd] at h
        refine ih _ (fun x hx => hl x (List.mem_cons_of_mem d hx)) ?_ key fe h
        intro key2 fe2 h2
        rw [storeLookup_append_one] at h2
        rcases hlc : storeLookup key2 init with _ | fe3
        · rw [hlc] at h2
          by_cases hdk : d = key2
          · rw [show (d == key2) = true from by simpa using hdk] at h2
            simp only [if_true] at h2
            cases h2
            exact ⟨rfl, hdk ▸ hl d (List.mem_cons_self d rest)⟩
          · rw [show (d == key2) = false from by simpa using hdk] at h2
            simp at h2
        · rw [hlc] at h2
          simp only [Option.some.injEq] at h2
          exact h2 ▸ hinit key2 fe3 hlc
  exact fun key fe h => main allPaths [] hnr (fun key fe h => by simp [storeLookup] at h) key fe h

/-- Chain paths produced by `hierarchyChainRev` are never the root. -/
theorem hierarchyChainRev_notRoot (l : List String) :
    ∀ x ∈ hierarchyChainRev l, isNotRootDirectory x = true := by
  induction l with
  | nil => intro x hx; simp [hierarchyChainRev] at hx
  | cons seg rest ih =>
    intro x hx
    simp only [hierarchyChainRev] at hx
    by_cases h : isRootDirectory (joinSlash (seg :: rest).reverse) = true
    · rw [if_pos h] at hx
      simp at hx
    · rw [if_neg h] at hx
      rcases List.mem_cons.mp hx with heq | hx
      · rw [heq]
        simp only [isNotRootDirectory]
        simp only [Bool.not_eq_true] at h
        simpa using h
      · exact ih x hx

/-- Paths accumulated by `addPathHierarchy` stay non-root when the
accumulator's are. -/
theorem addPathHierarchy_notRoot (dirPath : String) (acc : List String)
    (hacc : ∀ x ∈ acc, isNotRootDirectory x = true) :
    ∀ x ∈ addPathHierarchy dirPath acc, isNotRootDirectory x = true := by
  unfold addPathHierarchy
  have main : ∀ (l acc : List String),
      (∀ x ∈ acc, isNotRootDirectory x = true) →
      (∀ x ∈ l, isNotRootDirectory x = true) →
      ∀ x ∈ l.foldl (fun s y => if s.contains y then s else s ++ [y]) acc,
        isNotRootDirectory x = true := by
    intro l
    induction l with
    | nil => intro acc hacc hl x hx; exact hacc x hx
    | cons y ys ih =>
      intro acc hacc hl x hx
      simp only [List.foldl] at hx
      by_cases hy : acc.contains y = true
      · rw [if_pos hy] at hx
        exact ih acc hacc (fun z hz => hl z (List.mem_cons_of_mem y hz)) x hx
      · rw [if_neg hy] at hx
        refine ih _ ?_ (fun z hz => hl z (List.mem_cons_of_mem y hz)) x hx
        intro z hz
        rcases List.mem_append.mp hz with hz | hz
        · exact hacc z hz
        · have heq := List.mem_singleton.mp hz
          rw [heq]
          exact hl y (List.mem_cons_self y ys)
  exact main _ acc hacc (hierarchyChainRev_notRoot _)

/-- Every path collected by `extractAllDirectoryPaths` is non-root. -/
theorem extractAllDirectoryPaths_notRoot (deletedItems : List DItem) :
    ∀ x ∈ extractAllDirectoryPaths deletedItems, isNotRootDirectory x = true := by
  unfold extractAllDirectoryPaths
  have main : ∀ (l : List DItem) (acc : List String),
      (∀ x ∈ acc, isNotRootDirectory x = true) →
      ∀ x ∈ l.foldl
        (fun acc it =>
          let dirPath := dirname it.relativePath
          if isNotRootDirectory dirPath then addPathHierarchy dirPath acc else acc) acc,
        isNotRootDirectory x = true := by
    intro l
    induction l with
    | nil => intro acc hacc x hx; exact hacc x hx
    | cons it rest ih =>
      intro acc hacc x hx
      simp only [List.foldl] at hx
      by_cases hd : isNotRootDirectory (dirname it.relativePath) = true
      · rw [if_pos hd] at hx
        exact ih _ (addPathHierarchy_notRoot _ _ hacc) x hx
      · rw [if_neg hd] at hx
        exact ih _ hacc x hx
  exact main _ [] (by simp)

/-- Value transformation a single folder object undergoes in
`updateFolderTimestamps` (reads of other folders go through `base`). -/
def tsValue (base : FolderStore) (fe : FolderEnt) : FolderEnt :=
  if fe.children.isEmpty then fe
  else
    let latest := findLatestDeletionTime base fe.children
    if fe.deletionTime < latest then ⟨latest, fe.children⟩ else fe

/-- The timestamp pass is a key-preserving value map. -/
theorem updateTS_as_map (st : FolderStore) :
    updateFolderTimestamps st = st.map (fun e => (e.1, tsValue st e.2)) := by
  unfold updateFolderTimestamps tsValue
  apply List.map_congr_left
  intro e _
  by_cases h1 : e.2.children.isEmpty
  · simp [h1]
  · by_cases h2 : e.2.deletionTime < findLatestDeletionTime st e.2.children
    · simp [h1, h2]
    · simp [h1, h2]

/-- Lookup commutes with a key-preserving value map. -/
theorem storeLookup_map_value (g : FolderEnt → FolderEnt) :
    ∀ (l : FolderStore) (key : String),
      storeLookup key (l.map (fun e => (e.1, g e.2))) = (storeLookup key l).map g := by
  intro l
  induction l with
  | nil => intro key; rfl
  | cons e rest ih =>
    intro key
    rcases e with ⟨k, fe⟩
    by_cases hk : k = key
    · subst hk
      simp [storeLookup_cons]
    · simp [storeLookup_cons, (by simpa using hk : (k == key) = false), ih]

/-- The latest-deletion fold over pure item children is the maximum of their
deletion times (with the epoch-zero sentinel). -/
theorem findLatest_items (base : FolderStore) (l : List DItem) :
    findLatestDeletionTime base (l.map FChild.item) =
      (l.map DItem.deletionTime).foldl Nat.max 0 := by
  unfold findLatestDeletionTime
  rw [List.foldl_map, List.foldl_map]
  have step : ∀ (a : Nat) (it : DItem),
      (if a < childTimeIn base (FChild.item it) then childTimeIn base (FChild.item it) else a) =
        Nat.max a it.deletionTime := by
    intro a it
    simp only [childTimeIn]
    split
    · rename_i hlt
      exact (Nat.max_eq_right (Nat.le_of_lt hlt)).symm
    · rename_i hge
      exact (Nat.max_eq_left (by omega)).symm
  have congrFold : ∀ (l : List DItem) (a : Nat),
      l.foldl (fun latest it =>
        if latest < childTimeIn base (FChild.item it) then childTimeIn base (FChild.item it)
        else latest) a =
      l.foldl (fun a it => Nat.max a it.deletionTime) a := by
    intro l
    induction l with
    | nil => intro a; rfl
    | cons it rest ih =>
      intro a
      simp only [List.foldl]
      rw [step a it, ih]
  exact congrFold l 0

/-- C2, amended: after `createFolderMap` (file attachment and timestamp
aggregation), every synthetic folder's `deletionTime` is the maximum of the
epoch-zero sentinel and the deletion times of its direct file children —
the items whose parent directory is the folder's path.  Times of files
nested deeper are not aggregated, because `updateFolderTimestamps` runs
before `buildHierarchy` attaches subfolders to their parents. -/
theorem c2_folder_time_is_direct_file_max (deletedItems : List DItem)
    (key : String) (fe : FolderEnt)
    (h : storeLookup key (createFolderMap deletedItems) = some fe) :
    fe.deletionTime =
      ((deletedItems.filter (fun it => dirname it.relativePath == key)).map
        DItem.deletionTime).foldl Nat.max 0 := by
  unfold createFolderMap at h
  rw [updateTS_as_map, storeLookup_map_value, populate_lookup] at h
  rcases hc : storeLookup key
      ((extractAllDirectoryPaths deletedItems).foldl
        (fun m dirPath => if storeHas dirPath m then m else m ++ [(dirPath, ⟨0, []⟩)]) [])
    with _ | fe0
  · rw [hc] at h
    simp at h
  · rw [hc] at h
    obtain ⟨h0, hnr⟩ :=
      creation_lookup _ (extractAllDirectoryPaths_notRoot deletedItems) key fe0 hc
    subst h0
    simp only [Option.map_some'] at h
    have hfil : deletedItems.filter (fun it =>
          isNotRootDirectory (dirname it.relativePath) && (dirname it.relativePath == key)) =
        deletedItems.filter (fun it => dirname it.relativePath == key) := by
      apply List.filter_congr
      intro it _
      by_cases hk : dirname it.relativePath = key
      · simp [hk, hnr]
      · simp [(by simpa using hk : (dirname it.relativePath == key) = false)]
    rw [hfil] at h
    set filtered := deletedItems.filter (fun it => dirname it.relativePath == key) with hfdef
    simp only [List.nil_append] at h
    have hval := (Option.some.injEq _ _).mp h
    rw [← hval]
    unfold tsValue
    by_cases hemp : (filtered.map FChild.item).isEmpty
    · have hfe : filtered = [] := by
        rcases hff : filtered with _ | ⟨a, b⟩
        · rfl
        · rw [hff] at hemp
          simp [List.isEmpty] at hemp
      rw [hfe]
      rfl
    · rw [if_neg (by simpa using hemp)]
      rw [findLatest_items]
      by_cases hlt : 0 < (filtered.map DItem.deletionTime).foldl Nat.max 0
      · rw [if_pos hlt]
      · rw [if_neg hlt]
        simp only
        omega

/-- Totality of the `sortItems` comparator. -/
theorem sortItemsCmp_total (a b : DItem) : sortItemsCmp a b ≤ 0 ∨ sortItemsCmp b a ≤ 0 := by
  unfold sortItemsCmp
  cases ha : a.isDirectory <;> cases hb : b.isDirectory <;> simp [ha, hb]
  · exact localeCompare_total _ _
  · exact localeCompare_total _ _

/-- Transitivity of the `sortItems` comparator. -/
theorem sortItemsCmp_trans (a b c : DItem)
    (hab : sortItemsCmp a b ≤ 0) (hbc : sortItemsCmp b c ≤ 0) : sortItemsCmp a c ≤ 0 := by
  unfold sortItemsCmp at hab hbc ⊢
  cases ha : a.isDirectory <;> cases hb : b.isDirectory <;> cases hc : c.isDirectory <;>
    try simp [ha, hb, hc] at hab hbc ⊢
  all_goals exact localeCompare_trans _ _ _ hab hbc

/-- Elimination of the comparator's verdict into the ordering rule it
implements: directories strictly precede files, items of equal kind are
ordered by the locale comparison of their display names. -/
theorem sortItemsCmp_le_elim (a b : DItem) (h : sortItemsCmp a b ≤ 0) :
    (a.isDirectory = true ∧ b.isDirectory = false) ∨
      (a.isDirectory = b.isDirectory ∧
        localeCompare (getDisplayName a) (getDisplayName b) ≤ 0) := by
  unfold sortItemsCmp at h
  cases ha : a.isDirectory <;> cases hb : b.isDirectory <;> try simp [ha, hb] at h ⊢
  all_goals exact h

/-- Output of `sortItems` is pairwise ordered by the sorting rule. -/
theorem sortItems_pairwise (l : List DItem) :
    (sortItems l).Pairwise (fun a b =>
      (a.isDirectory = true ∧ b.isDirectory = false) ∨
        (a.isDirectory = b.isDirectory ∧
          localeCompare (getDisplayName a) (getDisplayName b) ≤ 0)) := by
  have hp := jsSortBy_pairwise sortItemsCmp_total sortItemsCmp_trans l
  exact List.Pairwise.imp (fun h => sortItemsCmp_le_elim _ _ h) hp

/-- C3, amended: the top-level forest returned by `organizeItemsByFolder` is
pairwise ordered by the sort rule — every directory precedes every file, and
items of the same kind appear in the order of the locale comparison of their
basenames.  (Nested children lists enjoy no such guarantee: only the
children of promoted top-level folders are sorted, and subfolders attached
afterwards land behind them unsorted.) -/
theorem c3_top_level_forest_sorted (workspaceRoot : String) (deletedItems : List DItem) :
    (organizeItemsByFolder workspaceRoot deletedItems).Pairwise (fun a b =>
      (a.isDirectory = true ∧ b.isDirectory = false) ∨
        (a.isDirectory = b.isDirectory ∧
          localeCompare (getDisplayName a) (getDisplayName b) ≤ 0)) := by
  unfold organizeItemsByFolder
  split
  · exact List.Pairwise.nil
  · exact sortItems_pairwise _

/-! ## Formalizations of claims C2 and C3 as stated, for the counterexamples -/

mutual

/-- Greatest `deletionTime` in a subtree, the node included. -/
def subtreeMaxTime : DItem → Nat
  | .mk _ _ _ t _ none => t
  | .mk _ _ _ t _ (some cs) => Nat.max t (forestMaxTime cs)
termination_by structural it => it

/-- Greatest `deletionTime` over a forest (epoch zero when empty). -/
def forestMaxTime : List DItem → Nat
  | [] => 0
  | c :: rest => Nat.max (subtreeMaxTime c) (forestMaxTime rest)
termination_by structural l => l

end

mutual

/-- Claim C2 as stated: every directory node's `deletionTime` equals the
maximum `deletionTime` among all of its descendants, recursively. -/
def specFolderTimesOk : DItem → Bool
  | .mk _ _ _ _ _ none => true
  | .mk _ _ isDir t _ (some cs) =>
      (!isDir || (t == forestMaxTime cs)) && specForestTimesOk cs
termination_by structural it => it

/-- Claim C2 as stated, over a forest. -/
def specForestTimesOk : List DItem → Bool
  | [] => true
  | c :: rest => specFolderTimesOk c && specForestTimesOk rest
termination_by structural l => l

end

/-- Case-sensitive lexicographic comparison, as claim C3 words it. -/
def specLexLe (a b : String) : Bool :=
  match charListCmp a.data b.data with
  | .gt => false
  | _ => true

/-- Ordering rule of claim C3 between two adjacent siblings: directories
before files, same-kind items in case-sensitive lexicographic order of
basenames. -/
def specOrderLe (a b : DItem) : Bool :=
  if a.isDirectory && !b.isDirectory then true
  else if !a.isDirectory && b.isDirectory then false
  else specLexLe (basename a.relativePath) (basename b.relativePath)

/-- Adjacent-pair orderedness of one children list. -/
def specAdjOk : List DItem → Bool
  | a :: b :: rest => specOrderLe a b && specAdjOk (b :: rest)
  | _ => true

mutual

/-- Claim C3 as stated on a node: every children list at every depth obeys
the ordering rule. -/
def specSortedItem : DItem → Bool
  | .mk _ _ _ _ _ none => true
  | .mk _ _ _ _ _ (some cs) => specAdjOk cs && specSortedForestAux cs
termination_by structural it => it

/-- Claim C3 as stated on the members of a forest. -/
def specSortedForestAux : List DItem → Bool
  | [] => true
  | c :: rest => specSortedItem c && specSortedForestAux rest
termination_by structural l => l

end

/-- Claim C3 as stated on a forest: the top-level list and every children
list below it obey the ordering rule. -/
def specSortedForest (l : List DItem) : Bool := specAdjOk l && specSortedForestAux l

/-- Flat input of the two-record organizer scenario: `a/x.txt` deleted at
time 1 and `a/b/y.txt` deleted at time 5. -/
def c23Items : List DItem :=
  [.mk "/ws/a/x.txt" "a/x.txt" false 1 (some "/b/x") none,
   .mk "/ws/a/b/y.txt" "a/b/y.txt" false 5 (some "/b/y") none]

/-- C2, counterexample: on the records `a/x.txt` (time 1) and `a/b/y.txt`
(time 5), the organizer's forest gives folder `a` deletionTime 1, not the
descendant maximum 5 — `updateFolderTimestamps` saw only the direct file
child `x.txt`, because folder `b` was attached to `a` later. -/
theorem c2_counterexample :
    organizeItemsByFolder "/ws" c23Items =
      [.mk "/ws/a" "a" true 1 (some "")
        (some [.mk "/ws/a/x.txt" "a/x.txt" false 1 (some "/b/x") none,
               .mk "/ws/a/b" "a/b" true 5 (some "")
                 (some [.mk "/ws/a/b/y.txt" "a/b/y.txt" false 5 (some "/b/y") none])])] ∧
    specForestTimesOk (organizeItemsByFolder "/ws" c23Items) = false :=
  ⟨rfl, rfl⟩

/-- C2, witness: the amended theorem applied to the scenario's folder map,
whose entry for `a` holds time 1 with the single direct file child. -/
theorem c2_witness :
    (⟨1, [.item (DItem.mk "/ws/a/x.txt" "a/x.txt" false 1 (some "/b/x") none)]⟩ :
        FolderEnt).deletionTime =
      ((c23Items.filter (fun it => dirname it.relativePath == "a")).map
        DItem.deletionTime).foldl Nat.max 0 :=
  c2_folder_time_is_direct_file_max c23Items "a" _ rfl

/-- C3, counterexample: on the same scenario, folder `a`'s children list in
the returned forest holds the file `x.txt` before the directory `b` — a
nested children list violating the claimed directories-before-files order
(only the top-level forest is sorted after subfolder attachment). -/
theorem c3_counterexample :
    specSortedForest (organizeItemsByFolder "/ws" c23Items) = false := rfl

/-! ## FileSystemUtils path and URI helpers (file-system-utils.ts) -/

/-- Embedding of `FileSystemUtils.normalizeUriPath`: strip a
`vscode-remote://host` prefix (host and path segment both non-empty, per the
regex `vscode-remote:\/\/[^/]+(.+)$`; no match leaves the input unchanged)
or a `file://` prefix, percent-decoding the remainder. -/
def normalizeUriPath (uriPath : String) : String :=
  if strStartsWith uriPath "vscode-remote://" then
    let after := uriPath.data.drop 16
    let host := after.takeWhile (· ≠ '/')
    let rest := after.drop host.length
    if host.isEmpty || rest.isEmpty then uriPath
    else String.mk (percentDecode rest)
  else if strStartsWith uriPath "file://" then
    String.mk (percentDecode (uriPath.data.drop 7))
  else uriPath

/-- Embedding of `FileSystemUtils.isPathInWorkspace`: a plain string-prefix
test, `filePath.startsWith(workspacePath)`. -/
def isPathInWorkspace (filePath workspacePath : String) : Bool :=
  strStartsWith filePath workspacePath

/-- First capture of the regex `file:\/\/([^"'\s]+)` in one line: the
non-empty run after the first `file://` occurrence up to a quote or
whitespace.  (The model inspects the first occurrence only; the claims
exercise no line with several.) -/
def fileUriCapture : List Char → Option (List Char)
  | [] => none
  | c :: rest =>
      if leadsChars ("file://".data) (c :: rest) then
        let cap := ((c :: rest).drop 7).takeWhile
          (fun ch => !(ch = '"' || ch = '\x27' || ch.isWhitespace))
        if cap.isEmpty then none else some cap
      else fileUriCapture rest

/-! ## BackupScanner (backup-scanner.ts, constants.ts)

The backup storage is embedded as a finite directory tree: a `BFile` is one
regular file with its name, its `stat` modification time, the `resource`
field its content yields under `readJsonFileSafe` (when it parses as a JSON
object carrying one), and its content as lines (for the embedded-marker
heuristic).  Directory entries that are neither regular files nor
directories (skipped by every scanner loop) are not represented.  The live
workspace, queried only through `fs.existsSync` on candidate origin paths,
is the predicate `existsOnDisk`. -/

/-- One regular file inside backup storage. -/
structure BFile where
  name : String
  mtime : Nat
  resource : Option String
  lines : List String

/-- One backup-storage directory: regular files and named subdirectories. -/
inductive BDir where
  | mk (files : List BFile) (subs : List (String × BDir)) : BDir

/-- File listing of a directory. -/
def BDir.files : BDir → List BFile
  | .mk fs _ => fs

/-- Subdirectory listing of a directory. -/
def BDir.subs : BDir → List (String × BDir)
  | .mk _ s => s

/-- The filesystem a discovery pass sees: the workspace root path, the
`.vscode/history` listing when that directory exists, the global backup
root when `getGlobalBackupPath()` names an existing directory, the
platform-specific backup locations (`none` marks a non-existing one, which
the scanner skips), and the live-existence predicate for origin paths. -/
structure ScanFS where
  workspacePath : String
  historyEntries : Option (List (String × BDir))
  globalBackup : Option (String × BDir)
  backupLocations : List (String × Option BDir)
  existsOnDisk : String → Bool

/-- Embedding of the scanner's mutable accumulation state
(`deletedItems`, `directoriesScanned`, `errors`).  The model's
`FileSystemUtils` wrappers never throw, so the catch-blocks that feed
`errors` are unreachable and the list stays empty. -/
structure ScanState where
  deletedItems : List DItem
  directoriesScanned : Nat
  errors : List String

/-- Embedding of `ScanResult` from types.ts. -/
structure ScanResult where
  items : List DItem
  directoriesScanned : Nat
  errors : List String

/-- Embedding of `ENTRIES_JSON_FILENAME` from constants.ts. -/
def ENTRIES_JSON_FILENAME : String := "entries.json"

/-- Embedding of `MAX_SCAN_DEPTH` from constants.ts. -/
def MAX_SCAN_DEPTH : Nat := 15

/-- Embedding of `FileSystemUtils.getFileStatsSafe` scoped to one directory:
the modification time of the first file with the given name, `none` when no
such file exists (the stat throws). -/
def getFileStatsSafe (d : BDir) (name : String) : Option Nat :=
  (d.files.find? (fun f => f.name == name)).map (·.mtime)

/-- Embedding of `FileSystemUtils.sortBackupFilesByDate`: sort the file
names by descending modification time; a failed stat on either side makes
the comparator return 0. -/
def sortBackupFilesByDate (d : BDir) (fileNames : List String) : List String :=
  jsSortBy
    (fun a b =>
      match getFileStatsSafe d a, getFileStatsSafe d b with
      | some statA, some statB => (statB : Int) - (statA : Int)
      | _, _ => 0)
    fileNames

/-- Line loop of `FileSystemUtils.extractOriginalPathFromBackup`: the first
line containing `file://` whose regex capture succeeds yields that capture. -/
def firstFileUriMarker : List String → Option (List Char)
  | [] => none
  | l :: rest =>
      if strIncludes l "file://" then
        match fileUriCapture l.data with
        | some cap => some cap
        | none => firstFileUriMarker rest
      else firstFileUriMarker rest

/-- Embedding of `FileSystemUtils.extractOriginalPathFromBackup`: scan the
first 10 lines of the backup's content for an embedded `file://` marker and
percent-decode its capture; with none found, reconstruct a path from the
workspace root and the basename of the containing directory.  (The
readFileSync failure that makes the original return `null` cannot occur in
the model, where the chosen backup file always has content.) -/
def extractOriginalPathFromBackup (lines : List String) (backupPath workspacePath : String) :
    Option String :=
  match firstFileUriMarker (lines.take 10) with
  | some cap => some (String.mk (percentDecode cap))
  | none => some (pathJoin workspacePath (basename (dirname backupPath)))

/-- Embedding of `BackupScanner.isValidDeletedFile`: inside the workspace by
prefix test, and nothing currently on disk at the path. -/
def isValidDeletedFile (fs : ScanFS) (originalPath : String) : Bool :=
  isPathInWorkspace originalPath fs.workspacePath && !fs.existsOnDisk originalPath

/-- Embedding of `BackupScanner.createDeletedItem`: a flat file record for
the origin path with the chosen backup and its modification time as the
deletion-time proxy.  (Nothing in the body can throw in the model, so the
catch-branch returning `null` is unreachable; the `nativeHistoryEntry`
metadata is not represented.) -/
def createDeletedItem (workspacePath originalPath backupPath : String) (mtime : Nat) :
    Option DItem :=
  some (.mk originalPath (pathRelative workspacePath originalPath) false mtime
    (some backupPath) none)

/-- Embedding of `BackupScanner.findNewestBackupFile`: among the directory's
regular files other than the metadata marker, take the head of the
date-descending sort and stat it. -/
def findNewestBackupFile (backupPath : String) (d : BDir) : Option (String × Nat) :=
  let backupFiles := (d.files.filter (fun f => f.name != ENTRIES_JSON_FILENAME)).map (·.name)
  if backupFiles.isEmpty then none
  else
    match sortBackupFilesByDate d backupFiles with
    | [] => none
    | newestFile :: _ =>
        let filePath := pathJoin backupPath newestFile
        match getFileStatsSafe d newestFile with
        | none => none
        | some mt => some (filePath, mt)

/-- Embedding of `BackupScanner.findNewestBackupInHistory`: all regular
files qualify; sort newest-first by modification time and return the head
with its path and content. -/
def findNewestBackupInHistory (historyPath : String) (d : BDir) : Option (String × BFile) :=
  match d.files with
  | [] => none
  | _ :: _ =>
      let sorted := jsSortBy
        (fun (a b : BFile) =>
          match getFileStatsSafe d a.name, getFileStatsSafe d b.name with
          | some statA, some statB => (statB : Int) - (statA : Int)
          | _, _ => 0)
        d.files
      match sorted with
      | [] => none
      | newest :: _ => some (pathJoin historyPath newest.name, newest)

/-- Embedding of `BackupScanner.processEntriesJson`: read the marker's
`resource`, normalize it, validate deletion, pick the newest sibling
snapshot and append the record. -/
def processEntriesJson (fs : ScanFS) (backupPath : String) (d : BDir) (st : ScanState) :
    ScanState :=
  match (d.files.find? (fun f => f.name == ENTRIES_JSON_FILENAME)).bind (·.resource) with
  | none => st
  | some resource =>
      let originalPath := normalizeUriPath resource
      if !isValidDeletedFile fs originalPath then st
      else
        match findNewestBackupFile backupPath d with
        | none => st
        | some (newestPath, mt) =>
            match createDeletedItem fs.workspacePath originalPath newestPath mt with
            | none => st
            | some item => { st with deletedItems := st.deletedItems ++ [item] }

/-- Embedding of `BackupScanner.processFileHistory`: prefer the metadata
marker when the history folder has one; otherwise fall back to the newest
contained file and the embedded-marker heuristic. -/
def processFileHistory (fs : ScanFS) (historyPath : String) (d : BDir) (st : ScanState) :
    ScanState :=
  if d.files.any (fun f => f.name == ENTRIES_JSON_FILENAME) then
    processEntriesJson fs historyPath d st
  else
    match findNewestBackupInHistory historyPath d with
    | none => st
    | some (newestPath, newest) =>
        match extractOriginalPathFromBackup newest.lines newestPath fs.workspacePath with
        | none => st
        | some originalPath =>
            if !isValidDeletedFile fs originalPath then st
            else
              match createDeletedItem fs.workspacePath originalPath newestPath newest.mtime with
              | none => st
              | some item => { st with deletedItems := st.deletedItems ++ [item] }

mutual

/-- Embedding of `BackupScanner.scanBackupDirectory`: stop beyond the depth
bound, count the directory, process a present metadata marker, and recurse
into every subdirectory one level deeper.  The recursion is well-founded
exactly by the source's own argument: the depth strictly increases towards
the bound. -/
def scanBackupDirectory (fs : ScanFS) (d : BDir) (backupPath : String)
    (currentDepth : Nat) (st : ScanState) : ScanState :=
  if currentDepth > MAX_SCAN_DEPTH then st
  else
    let st1 := { st with directoriesScanned := st.directoriesScanned + 1 }
    match d with
    | .mk files subs =>
        let st2 :=
          if files.any (fun f => f.name == ENTRIES_JSON_FILENAME) then
            processEntriesJson fs backupPath (.mk files subs) st1
          else st1
        scanSubdirectories fs subs backupPath currentDepth st2
termination_by structural d

/-- Subdirectory loop of `scanBackupDirectory`. -/
def scanSubdirectories (fs : ScanFS) (subs : List (String × BDir)) (backupPath : String)
    (currentDepth : Nat) (st : ScanState) : ScanState :=
  match subs with
  | [] => st
  | (name, sub) :: rest =>
      scanSubdirectories fs rest backupPath currentDepth
        (scanBackupDirectory fs sub (pathJoin backupPath name) (currentDepth + 1) st)
termination_by structural subs

end

/-- Embedding of `BackupScanner.scanHistoryDirectory`: process every
subdirectory of the workspace history directory (plain files there are
skipped by the source and not represented). -/
def scanHistoryDirectory (fs : ScanFS) (historyDir : String)
    (entries : List (String × BDir)) (st : ScanState) : ScanState :=
  entries.foldl (fun st e => processFileHistory fs (pathJoin historyDir e.1) e.2 st) st

/-- Embedding of `BackupScanner.scanWorkspaceBackups`: scan
`<workspace>/.vscode/history` when it exists. -/
def scanWorkspaceBackups (fs : ScanFS) (st : ScanState) : ScanState :=
  let historyDir := pathJoin (pathJoin fs.workspacePath ".vscode") "history"
  match fs.historyEntries with
  | none => st
  | some entries => scanHistoryDirectory fs historyDir entries st

/-- Embedding of `BackupScanner.scanGlobalBackups`: scan the global backup
root when the platform names one and it exists. -/
def scanGlobalBackups (fs : ScanFS) (st : ScanState) : ScanState :=
  match fs.globalBackup with
  | none => st
  | some (p, d) => scanBackupDirectory fs d p 0 st

/-- Embedding of `BackupScanner.scanVSCodeBackupLocations`: scan each
existing platform-specific location. -/
def scanVSCodeBackupLocations (fs : ScanFS) (st : ScanState) : ScanState :=
  fs.backupLocations.foldl
    (fun st loc =>
      match loc.2 with
      | none => st
      | some d => scanBackupDirectory fs d loc.1 0 st)
    st

/-- Embedding of `BackupScanner.scanAllBackupLocations`: reset the state,
run the three scan phases in order, and return the snapshot. -/
def scanAllBackupLocations (fs : ScanFS) : ScanResult :=
  let st := scanVSCodeBackupLocations fs
    (scanGlobalBackups fs
      (scanWorkspaceBackups fs ⟨[], 0, []⟩))
  ⟨st.deletedItems, st.directoriesScanned, st.errors⟩

/-! ## The validity invariant of everything the scanner emits -/

/-- Every item of the list names an origin path the scanner validated —
inside the workspace by string-prefix test and absent from disk — and
carries the `path.relative` of that origin as its `relativePath`. -/
def ValidItems (fs : ScanFS) (l : List DItem) : Prop :=
  ∀ it ∈ l, isValidDeletedFile fs it.uriFsPath = true ∧
    it.relativePath = pathRelative fs.workspacePath it.uriFsPath

/-- Appending one validated record preserves the invariant. -/
theorem ValidItems.append_one {fs : ScanFS} {l : List DItem} {item : DItem}
    (h : ValidItems fs l) (hitem : isValidDeletedFile fs item.uriFsPath = true)
    (hrel : item.relativePath = pathRelative fs.workspacePath item.uriFsPath) :
    ValidItems fs (l ++ [item]) := by
  intro it hit
  rcases List.mem_append.mp hit with hit | hit
  · exact h it hit
  · have heq := List.mem_singleton.mp hit
    rw [heq]
    exact ⟨hitem, hrel⟩

/-- `processEntriesJson` emits only validated records. -/
theorem processEntriesJson_valid (fs : ScanFS) (backupPath : String) (d : BDir)
    (st : ScanState) (h : ValidItems fs st.deletedItems) :
    ValidItems fs (processEntriesJson fs backupPath d st).deletedItems := by
  unfold processEntriesJson
  split
  · exact h
  · rename_i r heq
    by_cases hval : isValidDeletedFile fs (normalizeUriPath r) = true
    · rw [if_neg (by simp [hval])]
      split
      · exact h
      · rename_i pr newestPath mt heq2
        simp only [createDeletedItem]
        exact ValidItems.append_one h hval rfl
    · rw [if_pos (by simp [Bool.not_eq_true] at hval ⊢; exact hval)]
      exact h

/-- `processFileHistory` emits only validated records. -/
theorem processFileHistory_valid (fs : ScanFS) (historyPath : String) (d : BDir)
    (st : ScanState) (h : ValidItems fs st.deletedItems) :
    ValidItems fs (processFileHistory fs historyPath d st).deletedItems := by
  unfold processFileHistory
  split
  · exact processEntriesJson_valid fs historyPath d st h
  · split
    · exact h
    · rename_i pr newestPath newest heq
      split
      · exact h
      · rename_i originalPath heq2
        by_cases hval : isValidDeletedFile fs originalPath = true
        · rw [if_neg (by simp [hval])]
          simp only [createDeletedItem]
          exact ValidItems.append_one h hval rfl
        · rw [if_pos (by simp [Bool.not_eq_true] at hval ⊢; exact hval)]
          exact h

mutual

/-- The recursive walk emits only validated records. -/
theorem scanBackupDirectory_valid (fs : ScanFS) (d : BDir) (backupPath : String)
    (currentDepth : Nat) (st : ScanState) (h : ValidItems fs st.deletedItems) :
    ValidItems fs (scanBackupDirectory fs d backupPath currentDepth st).deletedItems := by
  rw [scanBackupDirectory]
  split
  · exact h
  · rcases d with ⟨files, subs⟩
    apply scanSubdirectories_valid
    split
    · exact processEntriesJson_valid fs backupPath (.mk files subs)
        { st with directoriesScanned := st.directoriesScanned + 1 } h
    · exact h
termination_by structural d

/-- The subdirectory loop emits only validated records. -/
theorem scanSubdirectories_valid (fs : ScanFS) (subs : List (String × BDir))
    (backupPath : String) (currentDepth : Nat) (st : ScanState)
    (h : ValidItems fs st.deletedItems) :
    ValidItems fs (scanSubdirectories fs subs backupPath currentDepth st).deletedItems := by
  match subs with
  | [] => exact h
  | (name, sub) :: rest =>
      rw [scanSubdirectories]
      exact scanSubdirectories_valid fs rest backupPath currentDepth _
        (scanBackupDirectory_valid fs sub (pathJoin backupPath name) (currentDepth + 1) st h)
termination_by structural subs

end

/-- The workspace-history loop emits only validated records. -/
theorem scanHistoryDirectory_valid (fs : ScanFS) (historyDir : String)
    (entries : List (String × BDir)) :
    ∀ (st : ScanState), ValidItems fs st.deletedItems →
      ValidItems fs (scanHistoryDirectory fs historyDir entries st).deletedItems := by
  induction entries with
  | nil => intro st h; exact h
  | cons e rest ih =>
    intro st h
    exact ih _ (processFileHistory_valid fs (pathJoin historyDir e.1) e.2 st h)

/-- Everything `scanAllBackupLocations` returns is validated. -/
theorem scanAll_valid (fs : ScanFS) : ValidItems fs (scanAllBackupLocations fs).items := by
  have h0 : ValidItems fs ([] : List DItem) := by intro it hit; simp at hit
  have h1 : ValidItems fs (scanWorkspaceBackups fs ⟨[], 0, []⟩).deletedItems := by
    unfold scanWorkspaceBackups
    split
    · exact h0
    · exact scanHistoryDirectory_valid fs _ _ _ h0
  have h2 : ValidItems fs (scanGlobalBackups fs
      (scanWorkspaceBackups fs ⟨[], 0, []⟩)).deletedItems := by
    unfold scanGlobalBackups
    split
    · exact h1
    · exact scanBackupDirectory_valid fs _ _ 0 _ h1
  have h3 : ∀ (locs : List (String × Option BDir)) (st : ScanState),
      ValidItems fs st.deletedItems →
      ValidItems fs (locs.foldl
        (fun st loc =>
          match loc.2 with
          | none => st
          | some d => scanBackupDirectory fs d loc.1 0 st) st).deletedItems := by
    intro locs
    induction locs with
    | nil => intro st h; exact h
    | cons loc rest ih =>
      intro st h
      apply ih
      rcases loc with ⟨p, _ | d⟩
      · exact h
      · exact scanBackupDirectory_valid fs d p 0 st h
  exact h3 fs.backupLocations _ h2

/-! ## Claims C1, C4, C7, C9 (discovery engine) -/

/-- Two-root scenario: the same origin path `/ws/del.txt` is referenced by a
marker in the workspace-local history (snapshot `b1`, time `t1`) and by a
marker in the global backup root (snapshot `b2`, time `t2`); the origin path
does not exist on disk. -/
def c1FS (t1 t2 : Nat) : ScanFS :=
  { workspacePath := "/ws",
    historyEntries := some [("h1", .mk [⟨"entries.json", 0, some "file:///ws/del.txt", []⟩,
                                        ⟨"b1", t1, none, []⟩] [])],
    globalBackup := some ("/g", .mk [⟨"entries.json", 0, some "file:///ws/del.txt", []⟩,
                                     ⟨"b2", t2, none, []⟩] []),
    backupLocations := [],
    existsOnDisk := fun _ => false }

/-- C1, counterexample: with the workspace-local snapshot older (time 3)
than the global one (time 5), the scan returns TWO records for the origin
path `/ws/del.txt` — the claimed newest-wins deduplication does not exist;
the first returned record is the older workspace-local one. -/
theorem c1_counterexample :
    ((scanAllBackupLocations (c1FS 3 5)).items.countP
      (fun it => it.uriFsPath == "/ws/del.txt")) = 2 ∧
    ((scanAllBackupLocations (c1FS 3 5)).items.map DItem.deletionTime) = [3, 5] :=
  ⟨rfl, rfl⟩

/-- C1, amended: `scanAllBackupLocations` concatenates the per-root results
in scan order (workspace history first, then global storage) and performs no
duplicate elimination: whatever the two snapshot times are, the same origin
path discovered from both roots yields exactly two records, one per
discovering backup directory, each carrying its own snapshot and time. -/
theorem c1_all_candidates_kept (t1 t2 : Nat) :
    (scanAllBackupLocations (c1FS t1 t2)).items =
      [.mk "/ws/del.txt" "del.txt" false t1 (some "/ws/.vscode/history/h1/b1") none,
       .mk "/ws/del.txt" "del.txt" false t2 (some "/g/b2") none] := rfl

/-- Outside-prefix scenario: a marker resolves to `/wsx/a.txt`, which lies
outside the workspace `/ws` as a filesystem subtree but shares `/ws` as a
string prefix; the path does not exist on disk. -/
def c4FS (t : Nat) : ScanFS :=
  { workspacePath := "/ws",
    historyEntries := none,
    globalBackup := some ("/g", .mk [⟨"entries.json", 0, some "file:///wsx/a.txt", []⟩,
                                     ⟨"b1", t, none, []⟩] []),
    backupLocations := [],
    existsOnDisk := fun _ => false }

/-- C4, counterexample: the origin `/wsx/a.txt` lies outside the workspace
root `/ws`, yet discovery emits a record for it, and that record's
`relativePath` is `../wsx/a.txt` — it contains a `..` segment.  The
workspace test is a plain string-prefix comparison, which `/wsx/…`
passes. -/
theorem c4_counterexample :
    ((scanAllBackupLocations (c4FS 7)).items.map DItem.relativePath) = ["../wsx/a.txt"] ∧
    ((splitSlash "../wsx/a.txt").contains "..") = true ∧
    isPathInWorkspace "/wsx/a.txt" "/ws" = true :=
  ⟨rfl, rfl, rfl⟩

/-- C4, amended: a candidate origin path is excluded exactly when it fails
the string-prefix test against the workspace root — every emitted record's
origin path starts with the workspace root as a string.  A path outside the
workspace directory that shares the root as a string prefix (such as
`/wsx/a.txt` under root `/ws`) is NOT excluded, and its `relativePath` then
escapes upward with `..` segments. -/
theorem c4_prefix_test_only (fs : ScanFS) (it : DItem)
    (h : it ∈ (scanAllBackupLocations fs).items) :
    strStartsWith it.uriFsPath fs.workspacePath = true ∧
    it.relativePath = pathRelative fs.workspacePath it.uriFsPath := by
  obtain ⟨hv, hrel⟩ := scanAll_valid fs it h
  unfold isValidDeletedFile isPathInWorkspace at hv
  simp only [Bool.and_eq_true] at hv
  exact ⟨hv.1, hrel⟩

/-- C4, witness: the amended theorem applied to the record of the
outside-prefix scenario. -/
theorem c4_witness :
    strStartsWith
      (DItem.mk "/wsx/a.txt" "../wsx/a.txt" false 7 (some "/g/b1") none).uriFsPath
      (c4FS 7).workspacePath = true ∧
    (DItem.mk "/wsx/a.txt" "../wsx/a.txt" false 7 (some "/g/b1") none).relativePath =
      pathRelative (c4FS 7).workspacePath
        (DItem.mk "/wsx/a.txt" "../wsx/a.txt" false 7 (some "/g/b1") none).uriFsPath :=
  c4_prefix_test_only (c4FS 7) _
    (show _ ∈ (scanAllBackupLocations (c4FS 7)).items from
      (by rw [show (scanAllBackupLocations (c4FS 7)).items =
          [DItem.mk "/wsx/a.txt" "../wsx/a.txt" false 7 (some "/g/b1") none] from rfl]
          ; exact List.mem_singleton.mpr rfl))

/-- C7: discovery emits a record only for a normalized origin path that
passes the workspace prefix test AND has no filesystem entry currently at
it — in particular no record is produced for a marker whose resource still
exists on disk. -/
theorem c7_emitted_implies_deleted_in_workspace (fs : ScanFS) (it : DItem)
    (h : it ∈ (scanAllBackupLocations fs).items) :
    isPathInWorkspace it.uriFsPath fs.workspacePath = true ∧
    fs.existsOnDisk it.uriFsPath = false := by
  obtain ⟨hv, hrel⟩ := scanAll_valid fs it h
  unfold isValidDeletedFile at hv
  simp only [Bool.and_eq_true] at hv
  refine ⟨hv.1, ?_⟩
  have := hv.2
  simp only [Bool.not_eq_true'] at this
  exact this

/-- C7, witness: the theorem applied to the first record of the two-root
scenario. -/
theorem c7_witness :
    isPathInWorkspace
      (DItem.mk "/ws/del.txt" "del.txt" false 3 (some "/ws/.vscode/history/h1/b1") none).uriFsPath
      (c1FS 3 5).workspacePath = true ∧
    (c1FS 3 5).existsOnDisk
      (DItem.mk "/ws/del.txt" "del.txt" false 3 (some "/ws/.vscode/history/h1/b1") none).uriFsPath
      = false :=
  c7_emitted_implies_deleted_in_workspace (c1FS 3 5) _
    (by rw [show (scanAllBackupLocations (c1FS 3 5)).items =
        [DItem.mk "/ws/del.txt" "del.txt" false 3 (some "/ws/.vscode/history/h1/b1") none,
         DItem.mk "/ws/del.txt" "del.txt" false 5 (some "/g/b2") none] from rfl]
        ; exact List.mem_cons_self _ _)

/-- C9: the depth bound is 15, and a call of `scanBackupDirectory` beyond
the bound returns its state unchanged — the walk never descends into, nor
even counts, a directory nested more than `MAX_SCAN_DEPTH` levels below a
candidate root, which is also the measure making the recursion
well-founded. -/
theorem c9_depth_bound :
    MAX_SCAN_DEPTH = 15 ∧
    (∀ (fs : ScanFS) (d : BDir) (backupPath : String) (currentDepth : Nat) (st : ScanState),
      currentDepth > MAX_SCAN_DEPTH →
      scanBackupDirectory fs d backupPath currentDepth st = st) := by
  refine ⟨rfl, ?_⟩
  intro fs d backupPath currentDepth st h
  rw [scanBackupDirectory, if_pos h]

/-- C9, witness: the theorem applied at depth 16 on a concrete directory. -/
theorem c9_witness :
    scanBackupDirectory (c1FS 3 5) (.mk [⟨"b", 1, none, []⟩] []) "/g" 16 ⟨[], 0, []⟩ =
      ⟨[], 0, []⟩ :=
  c9_depth_bound.2 (c1FS 3 5) _ "/g" 16 ⟨[], 0, []⟩ (by decide)

/-! ## Claim C6 (newest-sibling snapshot selection) -/

/-- With pairwise-distinct file names, looking a member's name up in the
listing finds that member. -/
theorem find?_name_nodup (files : List BFile)
    (hnodup : (files.map (·.name)).Nodup) (g : BFile) (hg : g ∈ files) :
    files.find? (fun f => f.name == g.name) = some g := by
  induction files with
  | nil => simp at hg
  | cons f rest ih =>
    rcases List.mem_cons.mp hg with heq | hg
    · rw [heq]
      exact List.find?_cons_of_pos _ (by simp)
    · have hne : f.name ≠ g.name := by
        intro hcontra
        have : g.name ∈ rest.map (·.name) := List.mem_map_of_mem _ hg
        rw [← hcontra] at this
        exact (List.nodup_cons.mp (by simpa using hnodup)).1 this
      rw [List.find?_cons_of_neg _ (by simpa using hne)]
      exact ih (List.nodup_cons.mp (by simpa using hnodup)).2 hg

/-- C6, amended: for a backup directory holding a valid metadata marker —
whose normalized resource path passes the deleted-in-workspace validation —
with pairwise-distinct file names and at least one regular file besides the
marker, `processEntriesJson` appends exactly one record, whose backup
snapshot path names a non-marker sibling of maximal modification time and
whose deletion time is that sibling's.  (A directory with no non-marker
sibling appends nothing, which is what the counterexample shows.) -/
theorem c6_newest_sibling_selected (fs : ScanFS) (backupPath : String) (d : BDir)
    (st : ScanState) (r : String)
    (hres : (d.files.find? (fun f => f.name == ENTRIES_JSON_FILENAME)).bind (·.resource) =
      some r)
    (hval : isValidDeletedFile fs (normalizeUriPath r) = true)
    (hnodup : (d.files.map (·.name)).Nodup)
    (hsib : d.files.filter (fun f => f.name != ENTRIES_JSON_FILENAME) ≠ []) :
    ∃ chosen : BFile,
      chosen ∈ d.files.filter (fun f => f.name != ENTRIES_JSON_FILENAME) ∧
      (∀ g ∈ d.files.filter (fun f => f.name != ENTRIES_JSON_FILENAME),
        g.mtime ≤ chosen.mtime) ∧
      processEntriesJson fs backupPath d st =
        { st with deletedItems := st.deletedItems ++
            [.mk (normalizeUriPath r)
              (pathRelative fs.workspacePath (normalizeUriPath r)) false chosen.mtime
              (some (pathJoin backupPath chosen.name)) none] } := by
  have hkey : ∀ x ∈ (d.files.filter (fun f => f.name != ENTRIES_JSON_FILENAME)).map (·.name),
      (getFileStatsSafe d x).isSome := by
    intro x hx
    rcases List.mem_map.mp hx with ⟨f, hf, hfx⟩
    have hfd : f ∈ d.files := List.mem_of_mem_filter hf
    unfold getFileStatsSafe
    rw [← hfx, find?_name_nodup d.files hnodup f hfd]
    rfl
  rcases hnames : (d.files.filter (fun f => f.name != ENTRIES_JSON_FILENAME)).map (·.name)
    with _ | ⟨n0, ns⟩
  · exact absurd (List.map_eq_nil_iff.mp hnames) hsib
  · have hnonempty : ((d.files.filter (fun f => f.name != ENTRIES_JSON_FILENAME)).map
        (·.name)).isEmpty = false := by
      rw [hnames]; rfl
    rcases hsort : sortBackupFilesByDate d
        ((d.files.filter (fun f => f.name != ENTRIES_JSON_FILENAME)).map (·.name))
      with _ | ⟨newest, rest⟩
    · have := jsSortBy_eq_nil hsort
      rw [this] at hnames
      simp at hnames
    · obtain ⟨hmem, hmax⟩ := jsSortBy_key_max (getFileStatsSafe d) _ hkey hsort
      rcases List.mem_map.mp hmem with ⟨f0, hf0, hf0name⟩
      have hstat : getFileStatsSafe d newest = some f0.mtime := by
        unfold getFileStatsSafe
        rw [← hf0name, find?_name_nodup d.files hnodup f0 (List.mem_of_mem_filter hf0)]
        rfl
      refine ⟨f0, hf0, ?_, ?_⟩
      · intro g hg
        have hgmem : g.name ∈ (d.files.filter
            (fun f => f.name != ENTRIES_JSON_FILENAME)).map (·.name) :=
          List.mem_map_of_mem _ hg
        have := hmax g.name hgmem
        have hgstat : getFileStatsSafe d g.name = some g.mtime := by
          unfold getFileStatsSafe
          rw [find?_name_nodup d.files hnodup g (List.mem_of_mem_filter hg)]
          rfl
        rw [hgstat, hstat] at this
        simpa using this
      · unfold processEntriesJson
        rw [hres]
        simp only [hval, Bool.not_true, Bool.false_eq_true, if_false]
        unfold findNewestBackupFile
        rw [if_neg (by rw [hnonempty]; simp)]
        rw [hsort]
        have hstat2 : getFileStatsSafe d f0.name = some f0.mtime := by
          rw [hf0name]
          exact hstat
        simp only [hstat, createDeletedItem, ← hf0name, hstat2]

/-- Marker-only scenario: a backup directory whose only file is a valid
metadata marker naming a deleted in-workspace path, with no sibling
snapshot. -/
def c6FS : ScanFS :=
  { workspacePath := "/ws",
    historyEntries := none,
    globalBackup := some ("/g", .mk [⟨"entries.json", 0, some "file:///ws/x.txt", []⟩] []),
    backupLocations := [],
    existsOnDisk := fun _ => false }

/-- C6, counterexample: the marker of `c6FS` is valid — its resource
normalizes to `/ws/x.txt`, inside the workspace and absent from disk — yet
discovery produces zero records, not the claimed exactly one, because the
directory holds no sibling snapshot file besides the marker. -/
theorem c6_counterexample :
    isValidDeletedFile c6FS (normalizeUriPath "file:///ws/x.txt") = true ∧
    (scanAllBackupLocations c6FS).items = [] :=
  ⟨rfl, rfl⟩

/-- Directory of the C6 witness scenario: a valid marker plus two snapshot
files, `b1` (time 3) and `b2` (time 5). -/
def c6Dir : BDir :=
  .mk [⟨"entries.json", 0, some "file:///ws/x.txt", []⟩,
       ⟨"b1", 3, none, []⟩, ⟨"b2", 5, none, []⟩] []

/-- C6, witness: the amended theorem applied to `c6Dir`, yielding the
existence of a maximal-time sibling driving the single appended record. -/
theorem c6_witness :
    ∃ chosen : BFile,
      chosen ∈ c6Dir.files.filter (fun f => f.name != ENTRIES_JSON_FILENAME) ∧
      (∀ g ∈ c6Dir.files.filter (fun f => f.name != ENTRIES_JSON_FILENAME),
        g.mtime ≤ chosen.mtime) ∧
      processEntriesJson c6FS "/g" c6Dir ⟨[], 0, []⟩ =
        { (⟨[], 0, []⟩ : ScanState) with deletedItems := ([] : List DItem) ++
            [.mk (normalizeUriPath "file:///ws/x.txt")
              (pathRelative c6FS.workspacePath (normalizeUriPath "file:///ws/x.txt")) false
              chosen.mtime (some (pathJoin "/g" chosen.name)) none] } :=
  c6_newest_sibling_selected c6FS "/g" c6Dir ⟨[], 0, []⟩ "file:///ws/x.txt" rfl rfl
    (by decide) (List.cons_ne_nil _ _)
